import Mathlib

/-!
Verification development for the Predictive Resilience Failover Controller (PRFC).

The TypeScript sources are shallowly embedded:
 - JS numbers are modelled as `ℚ` (all arithmetic in the verified code paths is
   exact decimal/ratio arithmetic on small values), node ids as `ℤ`, path ids as `ℕ`.
 - `Map`s and plain records are association lists preserving JS `Map` insertion
   order; `Map.set` overwrites in place, `Map.get` returns `Option`.
 - `Date.now()` is passed in explicitly as a `tNow : ℚ` argument wherever the
   source reads the clock.
 - `Array.prototype.sort` (guaranteed stable by the ECMAScript spec) is embedded
   as a stable insertion sort: the output of a stable sort is uniquely determined
   by the comparator and input order, so any stable sort realises it.
 - Logging (`console.log`/`warn`/`error`) has no effect on state and is dropped.
-/

/-- Association-list lookup with JS `Map.get` semantics (first matching key). -/
def assocFind {α β : Type} [DecidableEq α] : List (α × β) → α → Option β
  | [], _ => none
  | e :: rest, k => if e.1 = k then some e.2 else assocFind rest k

/-- JS `Map.set`: overwrite the entry in place when the key exists, else append. -/
def jsMapSet {α β : Type} [DecidableEq α] (m : List (α × β)) (k : α) (v : β) :
    List (α × β) :=
  if m.any (fun e => e.1 = k) then m.map (fun e => if e.1 = k then (k, v) else e)
  else m ++ [(k, v)]

/-- Sum of the values of an association list. -/
def sumVals {α : Type} (m : List (α × ℚ)) : ℚ := (m.map (fun e => e.2)).sum

/-- Stable insertion of `x` into `l`: keep `y` in front only when `y` is strictly
smaller under the total preorder induced by the boolean comparator `le`. -/
def insertLe {α : Type} (le : α → α → Bool) (x : α) : List α → List α
  | [] => [x]
  | y :: ys => if le y x ∧ ¬ le x y then y :: insertLe le x ys else x :: y :: ys

/-- Stable sort (the embedding of JS `Array.prototype.sort`, which is stable). -/
def jsSort {α : Type} (le : α → α → Bool) : List α → List α
  | [] => []
  | x :: xs => insertLe le x (jsSort le xs)

/-- JS `new Set(xs)` iterated in insertion order: first occurrences, in order. -/
def jsUniqueGo {α : Type} [DecidableEq α] (seen : List α) : List α → List α
  | [] => []
  | x :: xs => if x ∈ seen then jsUniqueGo seen xs else x :: jsUniqueGo (seen ++ [x]) xs

def jsUnique {α : Type} [DecidableEq α] (l : List α) : List α := jsUniqueGo [] l

/-! ## Graph engine (GraphEngine, monitor.ts)

`Node`/`Link` carry only the fields the embedded methods read (`id`, `tier`,
`bw_mbps`, `delay_ms`, utilisation); the remaining descriptor metadata
(`physical_map`, `quality`, capacity hints, `jitter_ms`, `loss_rate`) is inert
in every embedded code path and is omitted from the record. -/

inductive Tier
  | edge
  | core
  | cloud
deriving DecidableEq

structure GNode where
  id : ℤ
  tier : Tier
  current_utilization : ℚ := 0
deriving DecidableEq

structure GLink where
  u : ℤ
  v : ℤ
  bw_mbps : ℚ
  delay_ms : ℚ
  current_utilization : ℚ := 0
deriving DecidableEq

structure AdjEntry where
  neighbor : ℤ
  link : GLink
deriving DecidableEq

structure TopologyData where
  nodes : List GNode
  links : List GLink

structure GraphEngine where
  nodes : List (ℤ × GNode)
  links : List GLink
  adjacency : List (ℤ × List AdjEntry)
deriving DecidableEq

def nodeKeys (g : GraphEngine) : List ℤ := g.nodes.map (fun e => e.1)

def adjKeys (adj : List (ℤ × List AdjEntry)) : List ℤ := adj.map (fun e => e.1)

def adjGet (adj : List (ℤ × List AdjEntry)) (n : ℤ) : List AdjEntry :=
  match assocFind adj n with
  | some l => l
  | none => []

/-- Append an adjacency entry to the list stored under key `k`
(the JS `adjacencyList.get(k)!.push(e)`). -/
def adjPush (adj : List (ℤ × List AdjEntry)) (k : ℤ) (e : AdjEntry) :
    List (ℤ × List AdjEntry) :=
  adj.map (fun p => if p.1 = k then (p.1, p.2 ++ [e]) else p)

/-- `GraphEngine.buildGraph`: initialise an empty adjacency list for every node,
then add both directions of every link whose endpoints both exist (links with a
missing endpoint are skipped with a warning). -/
def buildGraph (g : GraphEngine) : GraphEngine :=
  let init : List (ℤ × List AdjEntry) := g.nodes.map (fun e => (e.1, []))
  let adj := g.links.foldl
    (fun acc link =>
      if link.u ∉ nodeKeys g then acc
      else if link.v ∉ nodeKeys g then acc
      else
        let acc1 := adjPush acc link.u { neighbor := link.v, link := link }
        adjPush acc1 link.v { neighbor := link.u, link := link })
    init
  { g with adjacency := adj }

/-- `GraphEngine.loadTopology`: store the nodes in a map (deduplicating ids with
`Map.set`), zero the utilisations, build the adjacency.  The only `throw` sites
in the source guard against malformed JSON (missing `nodes`/`links` arrays),
which the typed `TopologyData` cannot represent; `verifyConnectivity` is invoked
at the end of `buildGraph` but only writes to the console, so loading always
succeeds on typed input. -/
def loadTopology (topo : TopologyData) : Except Unit GraphEngine :=
  let nodes := topo.nodes.foldl
    (fun acc n => jsMapSet acc n.id { n with current_utilization := 0 }) []
  let links := topo.links.map (fun l => { l with current_utilization := 0 })
  Except.ok (buildGraph { nodes := nodes, links := links, adjacency := [] })

/-! ### Dijkstra (`GraphEngine.findShortestPath`) -/

structure DState where
  dist : ℤ → Option ℚ
  prev : ℤ → Option ℤ
  visited : List ℤ
  queue : List (ℚ × ℤ)

/-- `distances.get(neighbor) || Infinity`: a stored `0` is falsy in JS and is
read back as `Infinity` (`none`). -/
def jsOrInfinity (d : Option ℚ) : Option ℚ :=
  match d with
  | none => none
  | some q => if q = 0 then none else some q

/-- `newDist < oldDist` where `none` plays `Infinity`. -/
def ltInfinity (a : ℚ) (b : Option ℚ) : Bool :=
  match b with
  | none => true
  | some q => a < q

/-- One relaxation of the edge `c → e.neighbor` (body of the `for` loop over
`adjacencyList.get(currentNode)`). -/
def relaxStep (dst : ℤ) (excl : List ℤ) (c : ℤ) (cd : ℚ) (s : DState)
    (e : AdjEntry) : DState :=
  if e.neighbor ∈ excl ∧ e.neighbor ≠ dst then s
  else if e.neighbor ∈ s.visited then s
  else if ltInfinity (cd + e.link.delay_ms) (jsOrInfinity (s.dist e.neighbor)) then
    { s with
      dist := fun n => if n = e.neighbor then some (cd + e.link.delay_ms) else s.dist n,
      prev := fun n => if n = e.neighbor then some c else s.prev n,
      queue := s.queue ++ [(cd + e.link.delay_ms, e.neighbor)] }
  else s

def relaxAll (dst : ℤ) (excl : List ℤ) (c : ℤ) (cd : ℚ)
    (entries : List AdjEntry) (s : DState) : DState :=
  entries.foldl (relaxStep dst excl c cd) s

theorem relaxStep_visited (dst : ℤ) (excl : List ℤ) (c : ℤ) (cd : ℚ)
    (s : DState) (e : AdjEntry) : (relaxStep dst excl c cd s e).visited = s.visited := by
  unfold relaxStep
  split
  · rfl
  split
  · rfl
  split
  · rfl
  rfl

theorem relaxAll_visited (dst : ℤ) (excl : List ℤ) (c : ℤ) (cd : ℚ)
    (entries : List AdjEntry) (s : DState) :
    (relaxAll dst excl c cd entries s).visited = s.visited := by
  induction entries generalizing s with
  | nil => rfl
  | cons e rest ih =>
    unfold relaxAll
    simp only [List.foldl_cons]
    rw [show (List.foldl (relaxStep dst excl c cd) (relaxStep dst excl c cd s e) rest)
        = relaxAll dst excl c cd rest (relaxStep dst excl c cd s e) from rfl]
    rw [ih, relaxStep_visited]

theorem length_insertLe {α : Type} (le : α → α → Bool) (x : α) (l : List α) :
    (insertLe le x l).length = l.length + 1 := by
  induction l with
  | nil => simp [insertLe]
  | cons y ys ih =>
    simp only [insertLe]
    split
    · simp [ih]
    · simp

theorem length_jsSort {α : Type} (le : α → α → Bool) (l : List α) :
    (jsSort le l).length = l.length := by
  induction l with
  | nil => simp [jsSort]
  | cons x xs ih => simp [jsSort, length_insertLe, ih]

theorem perm_insertLe {α : Type} (le : α → α → Bool) (x : α) (l : List α) :
    (insertLe le x l).Perm (x :: l) := by
  induction l with
  | nil => simp [insertLe]
  | cons y ys ih =>
    simp only [insertLe]
    split
    · exact (ih.cons y).trans (List.Perm.swap x y ys)
    · exact List.Perm.refl _

theorem perm_jsSort {α : Type} (le : α → α → Bool) (l : List α) :
    (jsSort le l).Perm l := by
  induction l with
  | nil => simp [jsSort]
  | cons x xs ih => exact (perm_insertLe le x (jsSort le xs)).trans (ih.cons x)

theorem filter_imp_length_le {α : Type} (p q : α → Bool) (l : List α)
    (h : ∀ x ∈ l, p x = true → q x = true) :
    (l.filter p).length ≤ (l.filter q).length := by
  induction l with
  | nil => simp
  | cons x xs ih =>
    have ih2 := ih (fun y hy => h y (List.mem_cons_of_mem x hy))
    by_cases hp : p x = true
    · have hqx := h x (List.mem_cons_self x xs) hp
      simp [List.filter, hp, hqx]
      omega
    · simp only [List.filter, Bool.not_eq_true] at hp ⊢
      rw [hp]
      by_cases hqx : q x = true
      · simp [hqx]
        omega
      · simp only [Bool.not_eq_true] at hqx
        rw [hqx]
        exact ih2

theorem filter_not_mem_append_le (ks v : List ℤ) (c : ℤ) :
    (ks.filter (fun n => n ∉ v ++ [c])).length ≤ (ks.filter (fun n => n ∉ v)).length := by
  apply filter_imp_length_le
  intro x _ hx
  simp only [decide_eq_true_eq] at hx ⊢
  intro hv
  exact hx (by simp [hv])

theorem filter_not_mem_append_lt (ks v : List ℤ) (c : ℤ) (hc : c ∈ ks) (hv : c ∉ v) :
    (ks.filter (fun n => n ∉ v ++ [c])).length < (ks.filter (fun n => n ∉ v)).length := by
  induction ks with
  | nil => cases hc
  | cons x xs ih =>
    by_cases hxc : x = c
    · subst hxc
      have h1 : (x ∈ v ++ [x]) := by simp
      have h2 : (decide (x ∉ v ++ [x])) = false := by simp [h1]
      have h3 : (decide (x ∉ v)) = true := by simp [hv]
      simp only [List.filter, h2, h3]
      have := filter_not_mem_append_le xs v x
      simp only [List.length_cons]
      omega
    · have hcxs : c ∈ xs := by
        rcases List.mem_cons.mp hc with h | h
        · exact absurd h.symm hxc
        · exact h
      have hiff : (decide (x ∉ v ++ [c])) = (decide (x ∉ v)) := by
        by_cases hxv : x ∈ v
        · simp [hxv]
        · simp [hxv, hxc]
      by_cases hxv : x ∈ v ++ [c]
      · have hxv2 : x ∈ v := by
          rcases List.mem_append.mp hxv with h | h
          · exact h
          · exact absurd (by simpa using h) hxc
        simp only [List.filter, show (decide (x ∉ v ++ [c])) = false by simp [hxv],
          show (decide (x ∉ v)) = false by simp [hxv2]]
        exact ih hcxs
      · have hxv2 : x ∉ v := fun h => hxv (by simp [h])
        simp only [List.filter, show (decide (x ∉ v ++ [c])) = true by simp [hxv],
          show (decide (x ∉ v)) = true by simp [hxv2]]
        simp only [List.length_cons]
        have := ih hcxs
        omega

theorem filter_not_mem_append_eq (ks v : List ℤ) (c : ℤ) (hc : c ∉ ks) :
    ks.filter (fun n => n ∉ v ++ [c]) = ks.filter (fun n => n ∉ v) := by
  apply List.filter_congr
  intro x hx
  have hxc : x ≠ c := fun h => hc (h ▸ hx)
  by_cases hxv : x ∈ v
  · simp [hxv]
  · simp [hxv, hxc]

theorem adjGet_not_mem (adj : List (ℤ × List AdjEntry)) (n : ℤ)
    (h : n ∉ adjKeys adj) : adjGet adj n = [] := by
  induction adj with
  | nil => rfl
  | cons e rest ih =>
    have h1 : e.1 ≠ n := by
      intro hc
      exact h (by simp [adjKeys, hc])
    have h2 : n ∉ adjKeys rest := fun hm => h (by simp [adjKeys] at hm ⊢; exact Or.inr hm)
    simp only [adjGet, assocFind, h1, if_neg h1] at *
    exact ih h2

/-- The Dijkstra main loop (`while (priorityQueue.length > 0) …`).  Each
iteration sorts the queue ascending by distance (stable, as in JS), pops the
head, and either skips an already-visited node, breaks at the destination,
skips an excluded node, or relaxes the popped node's adjacency entries. -/
def dijkstraLoop (adj : List (ℤ × List AdjEntry)) (src dst : ℤ) (excl : List ℤ)
    (s : DState) : DState :=
  if hq : s.queue = [] then s
  else
    let sorted := jsSort (fun a b => a.1 ≤ b.1) s.queue
    let cd := sorted.headI.1
    let c := sorted.headI.2
    let rest := sorted.tail
    if c ∈ s.visited then dijkstraLoop adj src dst excl { s with queue := rest }
    else
      let s1 : DState := { s with visited := s.visited ++ [c], queue := rest }
      if c = dst then s1
      else if c ∈ excl ∧ c ≠ src ∧ c ≠ dst then dijkstraLoop adj src dst excl s1
      else dijkstraLoop adj src dst excl (relaxAll dst excl c cd (adjGet adj c) s1)
termination_by (((adjKeys adj).filter (fun n => n ∉ s.visited)).length, s.queue.length)
decreasing_by
  · apply Prod.Lex.right
    have h1 : (jsSort (fun a b => decide (a.1 ≤ b.1)) s.queue).length = s.queue.length :=
      length_jsSort _ _
    rw [List.length_tail]
    have h3 : s.queue ≠ [] := hq
    have h4 : 0 < s.queue.length := List.length_pos.mpr h3
    omega
  · by_cases hck : c ∈ adjKeys adj
    · apply Prod.Lex.left
      exact filter_not_mem_append_lt _ _ _ hck (by assumption)
    · have he : ((adjKeys adj).filter (fun n => n ∉ s.visited ++ [c])).length
          = ((adjKeys adj).filter (fun n => n ∉ s.visited)).length := by
        rw [filter_not_mem_append_eq _ _ _ hck]
      rw [he]
      apply Prod.Lex.right
      have h1a : (jsSort (fun a b => decide (a.1 ≤ b.1)) s.queue).length = s.queue.length :=
        length_jsSort _ _
      have h1b : sorted.length = s.queue.length := length_jsSort _ _
      rw [List.length_tail]
      have h4 : 0 < s.queue.length := List.length_pos.mpr hq
      omega
  · by_cases hck : c ∈ adjKeys adj
    · apply Prod.Lex.left
      rw [relaxAll_visited]
      exact filter_not_mem_append_lt _ _ _ hck (by assumption)
    · have hadj : adjGet adj c = [] := adjGet_not_mem adj c hck
      rw [hadj]
      have hs1 : relaxAll dst excl c cd [] s1 = s1 := rfl
      rw [hs1]
      have he : ((adjKeys adj).filter (fun n => n ∉ s.visited ++ [c])).length
          = ((adjKeys adj).filter (fun n => n ∉ s.visited)).length := by
        rw [filter_not_mem_append_eq _ _ _ hck]
      simp only [s1]
      rw [he]
      apply Prod.Lex.right
      have h1a : (jsSort (fun a b => decide (a.1 ≤ b.1)) s.queue).length = s.queue.length :=
        length_jsSort _ _
      have h1b : sorted.length = s.queue.length := length_jsSort _ _
      rw [List.length_tail]
      have h4 : 0 < s.queue.length := List.length_pos.mpr hq
      omega

/-- `previous.get(current) || null`: a predecessor id of `0` is falsy in JS and
is coerced to `null`, silently terminating path reconstruction. -/
def prevStep (prev : ℤ → Option ℤ) (cur : ℤ) : Option ℤ :=
  match prev cur with
  | none => none
  | some p => if p = 0 then none else some p

/-- The reconstruction loop (`while (current !== null) { path.unshift(...) }`).
The fuel argument is an embedding artifact: `walk_chain_spec` below shows the
chain of predecessors always terminates within `visited.length` steps, so the
fuel passed by `findShortestPath` is never exhausted. -/
def walkPrev (prev : ℤ → Option ℤ) : ℕ → ℤ → List ℤ
  | 0, cur => [cur]
  | n + 1, cur =>
    match prevStep prev cur with
    | none => [cur]
    | some p => walkPrev prev n p ++ [cur]

/-- `GraphEngine.findShortestPath` (Dijkstra over `delay_ms`). -/
def findShortestPath (g : GraphEngine) (src dst : ℤ) (excl : List ℤ) :
    Option (List ℤ) :=
  if src ∉ nodeKeys g then none
  else if dst ∉ nodeKeys g then none
  else
    let init : DState :=
      { dist := fun n => if n = src then some 0 else none,
        prev := fun _ => none,
        visited := [],
        queue := [(0, src)] }
    let s := dijkstraLoop g.adjacency src dst excl init
    if s.dist dst = none then none
    else some (walkPrev s.prev (s.visited.length + 1) dst)

/-- `GraphEngine.verifyConnectivity`: test the first edge node against the first
cloud node.  The result is only ever logged by the source — `buildGraph` and
`loadTopology` ignore it. -/
def verifyConnectivity (g : GraphEngine) : Bool :=
  let edgeNodes := (g.nodes.map (fun e => e.2)).filter (fun n => n.tier = Tier.edge)
  let cloudNodes := (g.nodes.map (fun e => e.2)).filter (fun n => n.tier = Tier.cloud)
  match edgeNodes, cloudNodes with
  | e :: _, c :: _ => (findShortestPath g e.id c.id []).isSome
  | _, _ => false

def getLink (g : GraphEngine) (u v : ℤ) : Option GLink :=
  match (adjGet g.adjacency u).find? (fun e => e.neighbor = v) with
  | some e => some e.link
  | none => none

def consecutivePairs (p : List ℤ) : List (ℤ × ℤ) := p.zip p.tail

/-- `GraphEngine.estimatePathLatency`: sum of `delay_ms` over consecutive links
that exist (missing links contribute nothing). -/
def estimatePathLatency (g : GraphEngine) (p : List ℤ) : ℚ :=
  if p.length < 2 then 0
  else
    (consecutivePairs p).foldl
      (fun acc pr =>
        match getLink g pr.1 pr.2 with
        | some link => acc + link.delay_ms
        | none => acc) 0

/-- `GraphEngine.estimatePathCapacity`: minimum available bandwidth along the
path, `none` playing `Infinity`; a final `Infinity` is reported as `0`. -/
def estimatePathCapacity (g : GraphEngine) (p : List ℤ) : ℚ :=
  if p.length < 2 then 0
  else
    let minCap := (consecutivePairs p).foldl
      (fun (acc : Option ℚ) pr =>
        match getLink g pr.1 pr.2 with
        | some link =>
          let availableBw := link.bw_mbps * (1 - link.current_utilization)
          match acc with
          | none => some availableBw
          | some m => some (min m availableBw)
        | none => acc) none
    match minCap with
    | none => 0
    | some m => m

/-- `GraphEngine.scorePath`. -/
def scorePath (g : GraphEngine) (p : List ℤ) : ℚ :=
  if p.length < 2 then 0
  else
    let latency := estimatePathLatency g p
    let capacity := estimatePathCapacity g p
    let hopCount : ℚ := (p.length : ℚ) - 1
    let utilStats := (consecutivePairs p).foldl
      (fun (acc : ℚ × ℚ) pr =>
        match getLink g pr.1 pr.2 with
        | some link => (acc.1 + link.current_utilization, acc.2 + 1)
        | none => acc) (0, 0)
    let avgUtilization := if utilStats.2 > 0 then utilStats.1 / utilStats.2 else 0
    let latencyScore := if latency > 0 then 1000 / latency else 0
    let capacityScore := capacity * 10
    let hopScore := if hopCount > 0 then 100 / hopCount else 0
    let utilizationScore := (1 - avgUtilization) * 100
    latencyScore + capacityScore + hopScore + utilizationScore

def tierOrder : Tier → ℕ
  | Tier.edge => 1
  | Tier.core => 2
  | Tier.cloud => 3

def tierMonotone (g : GraphEngine) : List ℤ → ℕ → Bool
  | [], _ => true
  | n :: rest, cur =>
    match assocFind g.nodes n with
    | none => false
    | some node =>
      let lvl := tierOrder node.tier
      if lvl < cur then false else tierMonotone g rest lvl

/-- `GraphEngine.isValidPath`: tiers are non-decreasing, the path starts at an
edge node and ends at a cloud node. -/
def isValidPath (g : GraphEngine) (p : List ℤ) : Bool :=
  if p.length < 2 then false
  else if ¬ tierMonotone g p 0 then false
  else
    match assocFind g.nodes p.headI, assocFind g.nodes ((p.getLast?).getD 0) with
    | some firstNode, some lastNode =>
      firstNode.tier = Tier.edge ∧ lastNode.tier = Tier.cloud
    | _, _ => false

inductive GPathStatus
  | active
  | degraded
  | failed
deriving DecidableEq

structure GPath where
  nodeIds : List ℤ
  latency : ℚ
  capacity : ℚ
  score : ℚ
  status : GPathStatus
deriving DecidableEq

/-- Interior elements of a found path (`for (let j = 1; j < path.length - 1; j++)`). -/
def interiorNodes (p : List ℤ) : List ℤ := (p.drop 1).dropLast

/-- The iteration of `findKShortestPaths`: up to `k` rounds, each extending the
exclusion set with the intermediate nodes of every previously found path. -/
def kLoop (g : GraphEngine) (src dst : ℤ) (excl : List ℤ) :
    ℕ → List (List ℤ) → List ℤ → List (List ℤ)
  | 0, found, _ => found
  | i + 1, found, used =>
    let currentExclude := excl ++ used.filter (fun n => n ≠ src ∧ n ≠ dst)
    match findShortestPath g src dst currentExclude with
    | none => found
    | some p => kLoop g src dst excl i (found ++ [p]) (used ++ interiorNodes p)

/-- `GraphEngine.findKShortestPaths`: the node-disjoint iterative simplification
of Yen's algorithm, returning scored `Path` records. -/
def findKShortestPaths (g : GraphEngine) (src dst : ℤ) (k : ℕ) (excl : List ℤ) :
    List GPath :=
  if src ∉ nodeKeys g ∨ dst ∉ nodeKeys g then []
  else if k = 0 then []
  else
    (kLoop g src dst excl k [] []).map
      (fun p =>
        { nodeIds := p,
          latency := estimatePathLatency g p,
          capacity := estimatePathCapacity g p,
          score := scorePath g p,
          status := GPathStatus.active })

/-! ## PRFC controller (PRFCController, part_004)

`now()` is passed explicitly as `tNow`.  `executeFailover`/`checkFailoverTrigger`
(random spin-up sleep, incident buffer, node-health polling) are outside the
claims under verification and are not embedded. -/

structure BatchLatency where
  ts : ℚ
  latencyMs : ℚ
deriving DecidableEq

inductive PathStatus
  | healthy
  | degraded
  | recovering
deriving DecidableEq

structure PathMetrics where
  nodeIds : List ℤ
  ewma : ℚ
  slope : ℚ
  loadPercentage : ℚ
  status : PathStatus
  lastFailureTime : ℚ
  lastRecoveryTime : ℚ
  latencyWindow : List BatchLatency
deriving DecidableEq

structure TransitionStep where
  timestamp : ℚ
  distribution : List (ℕ × ℚ)
deriving DecidableEq

structure TransitionSchedule where
  steps : List TransitionStep
  durationMs : ℚ
  startTime : ℚ
deriving DecidableEq

structure Controller where
  windowSize : ℕ
  alpha : ℚ
  ewmaMaxMs : ℚ
  slopeMinMsPerS : ℚ
  holdSec : ℚ
  cpuMax : ℚ
  bufMaxPct : ℚ
  latencyWindow : List BatchLatency := []
  ewma : ℚ := 0
  slope : ℚ := 0
  triggerStartTime : Option ℚ := none
  failoverInProgress : Bool := false
  impactedBatchTime : Option ℚ := none
  paths : List (ℕ × PathMetrics) := []
  optimalDistribution : List (ℕ × ℚ) := []
deriving DecidableEq

def RECOVERY_HOLD_TIME_MS : ℚ := 20000

def STABILITY_TIME_MS : ℚ := 15000

def TRANSITION_DURATION_MS : ℚ := 7000

/-- The EWMA recurrence shared by `updateEWMA` and `updatePathMetrics`: an
`ewma` of exactly `0` is treated as "no sample yet" and overwritten by the raw
sample. -/
def nextEwma (c : Controller) (ewma latencyMs : ℚ) : ℚ :=
  if ewma = 0 then latencyMs else c.alpha * latencyMs + (1 - c.alpha) * ewma

/-- `PRFCController.updateEWMA`. -/
def updateEWMA (c : Controller) (latencyMs : ℚ) : Controller :=
  { c with ewma := nextEwma c c.ewma latencyMs }

/-- Ring push with eviction (`push` + `shift` when over `windowSize`). -/
def pushWindow (c : Controller) (w : List BatchLatency) (tNow latencyMs : ℚ) :
    List BatchLatency :=
  if (w ++ [({ ts := tNow, latencyMs := latencyMs } : BatchLatency)]).length > c.windowSize
  then (w ++ [({ ts := tNow, latencyMs := latencyMs } : BatchLatency)]).tail
  else w ++ [({ ts := tNow, latencyMs := latencyMs } : BatchLatency)]

/-- The OLS slope of a latency window against its 0-based ring index
(the summation loop shared by `updateSlope` and `updatePathMetrics`). -/
def slopeOfWindow (w : List BatchLatency) : ℚ :=
  let n : ℚ := (w.length : ℚ)
  let ys := w.map (fun b => b.latencyMs)
  let xs := (List.range w.length).map (fun i => (i : ℚ))
  let sumX := xs.sum
  let sumY := ys.sum
  let sumXY := ((xs.zip ys).map (fun p => p.1 * p.2)).sum
  let sumX2 := (xs.map (fun x => x * x)).sum
  let denominator := n * sumX2 - sumX * sumX
  if denominator = 0 then 0 else (n * sumXY - sumX * sumY) / denominator

/-- `PRFCController.updateSlope` (aggregate window). -/
def updateSlope (c : Controller) : Controller :=
  if c.latencyWindow.length < 2 then { c with slope := 0 }
  else { c with slope := slopeOfWindow c.latencyWindow }

/-- `PRFCController.registerPath`. -/
def registerPath (c : Controller) (pathId : ℕ) (nodeIds : List ℤ) (initialLoad : ℚ) :
    Controller :=
  { c with
    paths := jsMapSet c.paths pathId
      { nodeIds := nodeIds, ewma := 0, slope := 0, loadPercentage := initialLoad,
        status := PathStatus.healthy, lastFailureTime := 0, lastRecoveryTime := 0,
        latencyWindow := [] },
    optimalDistribution := jsMapSet c.optimalDistribution pathId initialLoad }

/-- The per-path slope: recomputed only once the ring holds two samples,
otherwise the previous slope is kept (unlike the aggregate `updateSlope`,
which resets to `0`). -/
def nextPathSlope (w2 : List BatchLatency) (oldSlope : ℚ) : ℚ :=
  if w2.length ≥ 2 then slopeOfWindow w2 else oldSlope

/-- The per-path mutation performed by `updatePathMetrics`: push the sample
into the per-path ring, update the per-path EWMA (same zero-sentinel rule) and
slope, then run the inline status logic: the degradation predicate forces
`degraded` and refreshes `lastFailureTime`; otherwise a `recovering` path whose
new EWMA is below `0.6 · ewmaMaxMs` flips straight to `healthy` (no
stability-time check in this code path). -/
def perBatchPathUpdate (c : Controller) (tNow latencyMs : ℚ) (m : PathMetrics) :
    PathMetrics :=
  let w2 := pushWindow c m.latencyWindow tNow latencyMs
  let e1 := nextEwma c m.ewma latencyMs
  let s1 := nextPathSlope w2 m.slope
  let m1 := { m with latencyWindow := w2, ewma := e1, slope := s1 }
  if e1 > c.ewmaMaxMs ∧ s1 ≥ c.slopeMinMsPerS then
    { m1 with status := PathStatus.degraded, lastFailureTime := tNow }
  else if m.status = PathStatus.recovering ∧ e1 < c.ewmaMaxMs * 0.6 then
    { m1 with status := PathStatus.healthy }
  else m1

/-- `PRFCController.updatePathMetrics`. -/
def updatePathMetrics (c : Controller) (tNow : ℚ) (pathId : ℕ) (latencyMs : ℚ) :
    Controller :=
  match assocFind c.paths pathId with
  | none => c
  | some m => { c with paths := jsMapSet c.paths pathId (perBatchPathUpdate c tNow latencyMs m) }

/-- `PRFCController.addBatchLatency`. -/
def addBatchLatency (c : Controller) (tNow : ℚ) (latencyMs : ℚ) (pathId : Option ℕ) :
    Controller :=
  let c1 := updateSlope
    (updateEWMA { c with latencyWindow := pushWindow c c.latencyWindow tNow latencyMs } latencyMs)
  match pathId with
  | some pid => if (assocFind c1.paths pid).isSome then updatePathMetrics c1 tNow pid latencyMs else c1
  | none => c1

/-- `PRFCController.updatePathLoad`. -/
def updatePathLoad (c : Controller) (pathId : ℕ) (loadPercentage : ℚ) : Controller :=
  match assocFind c.paths pathId with
  | none => c
  | some m => { c with paths := jsMapSet c.paths pathId { m with loadPercentage := loadPercentage } }

/-- `PRFCController.detectDegradedPaths`: returns every path id currently
matching the degradation predicate (regardless of prior status) and transitions
those not already `degraded`. -/
def detectDegradedPaths (c : Controller) (tNow : ℚ) : List ℕ × Controller :=
  let ids := c.paths.filterMap
    (fun e => if e.2.ewma > c.ewmaMaxMs ∧ e.2.slope ≥ c.slopeMinMsPerS then some e.1 else none)
  let ps := c.paths.map
    (fun e =>
      if e.2.ewma > c.ewmaMaxMs ∧ e.2.slope ≥ c.slopeMinMsPerS then
        (if e.2.status ≠ PathStatus.degraded then
          (e.1, { e.2 with status := PathStatus.degraded, lastFailureTime := tNow })
        else (e.1, e.2))
      else (e.1, e.2))
  (ids, { c with paths := ps })

/-- `nodeCount.set(nodeId, (nodeCount.get(nodeId) || 0) + 1)`. -/
def bumpCount (m : List (ℤ × ℕ)) (nodeId : ℤ) : List (ℤ × ℕ) :=
  jsMapSet m nodeId ((assocFind m nodeId).getD 0 + 1)

/-- The `nodeCount` map of `findCommonNodes`: occurrences of each node over the
paths' unique node sets, in first-encounter order. -/
def nodeCountOf (paths : List (List ℤ)) : List (ℤ × ℕ) :=
  paths.foldl (fun m p => (jsUnique p).foldl bumpCount m) []

/-- `PRFCController.findCommonNodes`: a single path is returned whole; otherwise
count each node over the paths' unique node sets (endpoints included) and keep
nodes reaching `max(2, ⌈0.5·|paths|⌉)`, sorted by count descending (stable). -/
def findCommonNodes (paths : List (List ℤ)) : List ℤ :=
  if paths.length = 0 then []
  else if paths.length = 1 then paths.headI
  else
    let nodeCount := nodeCountOf paths
    let threshold := max 2 ((paths.length + 1) / 2)
    let commonNodes := nodeCount.filterMap
      (fun e => if threshold ≤ e.2 then some e.1 else none)
    jsSort (fun a b => (assocFind nodeCount b).getD 0 ≤ (assocFind nodeCount a).getD 0) commonNodes

/-- `PRFCController.detectRecoveredPaths`: per-path recovery transition,
`degraded → recovering` needs EWMA `< 0.8 T`, slope `≤ 0.5` and more than
`RECOVERY_HOLD_TIME_MS` since the last failure; `recovering → healthy` needs
EWMA `< 0.6 T` and more than `STABILITY_TIME_MS` since recovery began. -/
def recoveryStep (c : Controller) (tNow : ℚ) (m : PathMetrics) : PathMetrics :=
  if m.status = PathStatus.degraded then
    (if m.ewma < c.ewmaMaxMs * 0.8 ∧ m.slope ≤ 0.5 ∧ tNow - m.lastFailureTime > RECOVERY_HOLD_TIME_MS
     then { m with status := PathStatus.recovering, lastRecoveryTime := tNow }
     else m)
  else if m.status = PathStatus.recovering then
    (if m.ewma < c.ewmaMaxMs * 0.6 ∧ tNow - m.lastRecoveryTime > STABILITY_TIME_MS
     then { m with status := PathStatus.healthy }
     else m)
  else m

def detectRecoveredPaths (c : Controller) (tNow : ℚ) : List ℕ × Controller :=
  let ids := c.paths.filterMap
    (fun e =>
      if e.2.status = PathStatus.degraded then
        (if e.2.ewma < c.ewmaMaxMs * 0.8 ∧ e.2.slope ≤ 0.5 ∧
            tNow - e.2.lastFailureTime > RECOVERY_HOLD_TIME_MS
         then some e.1 else none)
      else if e.2.status = PathStatus.recovering then
        (if e.2.ewma < c.ewmaMaxMs * 0.6 ∧ tNow - e.2.lastRecoveryTime > STABILITY_TIME_MS
         then some e.1 else none)
      else none)
  (ids, { c with paths := c.paths.map (fun e => (e.1, recoveryStep c tNow e.2)) })

/-- Re-normalisation shared by `rebalancePaths` and `gradualRevert`: rescale only
when the total is off by more than `0.01`. -/
def renormalize (d : List (ℕ × ℚ)) : List (ℕ × ℚ) :=
  let total := sumVals d
  if |total - 100| > 0.01 then d.map (fun e => (e.1, e.2 * (100 / total))) else d

/-- The graph-engine surface consumed by `rebalancePaths` (the source passes the
engine as an untyped `any` value). -/
structure GraphOracle where
  findK : ℤ → ℤ → ℕ → List ℤ → List GPath
  isValid : List ℤ → Bool

/-- Registered ids not flagged degraded (`healthyPaths` in `rebalancePaths`). -/
def healthyIdsOf (c1 : Controller) (dIds : List ℕ) : List ℕ :=
  c1.paths.filterMap (fun e => if e.1 ∈ dIds then none else some e.1)

/-- `metrics?.loadPercentage || 0` (a load of `0` is already `0`). -/
def loadOfPath (c1 : Controller) (pid : ℕ) : ℚ :=
  match assocFind c1.paths pid with
  | some m => m.loadPercentage
  | none => 0

def totalHealthyLoadOf (c1 : Controller) (dIds : List ℕ) : ℚ :=
  ((healthyIdsOf c1 dIds).map (loadOfPath c1)).sum

/-- The 5%-per-degraded-path entries of the new distribution, in registry order. -/
def degradedDist (c1 : Controller) (dIds : List ℕ) : List (ℕ × ℚ) :=
  c1.paths.filterMap (fun e => if e.1 ∈ dIds then some (e.1, (5 : ℚ)) else none)

/-- The healthy entries: previous relative share of the healthy mass, scaled to
fill `100 − 5·|dIds|`, or an even split of it when the healthy mass is zero. -/
def healthyDist (c1 : Controller) (dIds : List ℕ) : List (ℕ × ℚ) :=
  (healthyIdsOf c1 dIds).map
    (fun pid =>
      (pid,
        if totalHealthyLoadOf c1 dIds > 0 then
          (loadOfPath c1 pid / totalHealthyLoadOf c1 dIds) * (100 - (dIds.length : ℚ) * 5)
        else (100 - (dIds.length : ℚ) * 5) / ((healthyIdsOf c1 dIds).length : ℚ)))

/-- The even split used when every registered path is degraded. -/
def allDegradedDist (c1 : Controller) (dIds : List ℕ) : List (ℕ × ℚ) :=
  c1.paths.map (fun e => (e.1, (100 : ℚ) / (dIds.length : ℚ)))

/-- The node-id lists of the currently degraded paths, fed to `findCommonNodes`. -/
def degradedNodeLists (c1 : Controller) (dIds : List ℕ) : List (List ℤ) :=
  dIds.filterMap (fun pid => (assocFind c1.paths pid).map (fun m => m.nodeIds))

/-- `PRFCController.rebalancePaths`.  `validPaths` is sorted by score in the
source but never read afterwards, so the sort is dropped here.  Degraded paths
are pinned to 5%, remaining paths keep their relative share of
`100 − 5·|degraded|`; with every path degraded the load is split evenly and
returned without applying it to the registry. -/
def rebalancePaths (ge : GraphOracle) (c : Controller) (tNow : ℚ)
    (sourceNode destNode : ℤ) : Option (List (ℕ × ℚ)) × Controller :=
  let r := detectDegradedPaths c tNow
  let dIds := r.1
  let c1 := r.2
  if dIds = [] then (none, c1)
  else
    let newPaths := ge.findK sourceNode destNode 5
      (findCommonNodes (degradedNodeLists c1 dIds))
    if newPaths = [] then (none, c1)
    else if newPaths.filter (fun p => ge.isValid p.nodeIds) = [] then (none, c1)
    else if healthyIdsOf c1 dIds = [] then (some (allDegradedDist c1 dIds), c1)
    else
      let nd := renormalize (degradedDist c1 dIds ++ healthyDist c1 dIds)
      let c2 := nd.foldl (fun cc e => updatePathLoad cc e.1 e.2) c1
      (some nd, c2)

/-- The current-distribution snapshot taken at the top of `gradualRevert`. -/
def revertCurrent (c1 : Controller) : List (ℕ × ℚ) :=
  c1.paths.map (fun e => (e.1, e.2.loadPercentage))

/-- The target distribution of `gradualRevert`: a copy of `optimalDistribution`,
overwritten with a uniform split when every registered path is degraded. -/
def revertTarget (c1 : Controller) : List (ℕ × ℚ) :=
  if c1.paths.all (fun e => e.2.status = PathStatus.degraded) then
    c1.paths.foldl (fun acc e => jsMapSet acc e.1 ((100 : ℚ) / (c1.paths.length : ℚ)))
      c1.optimalDistribution
  else c1.optimalDistribution

/-- Record read with a `0` default.  In JS a missing key yields `undefined` and
poisons the arithmetic with `NaN`; `registerPath` always populates
`optimalDistribution` for every registered id, so the theorems below carry the
corresponding well-formedness hypotheses and the default is never exercised. -/
def recordGetD (m : List (ℕ × ℚ)) (k : ℕ) : ℚ := (assocFind m k).getD 0

/-- `PRFCController.gradualRevert`: run the recovery transitions, bail out unless
some path is healthy/recovering and some load differs from target by more than
one percentage point, else emit 5 linearly interpolated, re-normalised steps
over `TRANSITION_DURATION_MS`. -/
def gradualRevert (c : Controller) (tNow : ℚ) : Option TransitionSchedule × Controller :=
  let c1 := (detectRecoveredPaths c tNow).2
  let current := revertCurrent c1
  let target := revertTarget c1
  let hasHealthyOrRecovering := c1.paths.any
    (fun e => e.2.status = PathStatus.healthy ∨ e.2.status = PathStatus.recovering)
  let needsRevert := current.any (fun e => |e.2 - recordGetD target e.1| > 1)
  if ¬ needsRevert ∨ ¬ hasHealthyOrRecovering then (none, c1)
  else
    let numSteps : ℕ := 5
    let stepDuration := TRANSITION_DURATION_MS / (numSteps : ℚ)
    let steps := (List.range numSteps).map
      (fun (j : ℕ) =>
        let i : ℚ := (j : ℚ) + 1
        let progress := i / (numSteps : ℚ)
        let stepDistribution := current.map
          (fun e => (e.1, e.2 + (recordGetD target e.1 - e.2) * progress))
        ({ timestamp := tNow + i * stepDuration,
           distribution := renormalize stepDistribution } : TransitionStep))
    (some { steps := steps, durationMs := TRANSITION_DURATION_MS, startTime := tNow }, c1)

/-- `PRFCController.applyTransitionStep`. -/
def applyTransitionStep (c : Controller) (step : TransitionStep) : Controller :=
  step.distribution.foldl (fun cc e => updatePathLoad cc e.1 e.2) c

/-! ## Auxiliary definitions used by the verification statements -/

/-- The sum of the target loads read back for the registered ids (the mass the
interpolation of §`gradualRevert` converges to). -/
def revertTargetSum (c1 : Controller) : ℚ :=
  (c1.paths.map (fun e => recordGetD (revertTarget c1) e.1)).sum

/-- The specified EWMA series: seeded with the first sample, then
`α·x + (1−α)·ewma`. -/
def specEwmaFold (alpha x1 : ℚ) (rest : List ℚ) : ℚ :=
  rest.foldl (fun e x => alpha * x + (1 - alpha) * e) x1

/-- Feed a list of batch latencies through `addBatchLatency` (constant clock;
the EWMA recurrences are time-independent). -/
def feedBatches (c : Controller) (tNow : ℚ) (pathId : Option ℕ) : List ℚ → Controller
  | [] => c
  | x :: xs => feedBatches (addBatchLatency c tNow x pathId) tNow pathId xs

/-- Index of the first occurrence (visit order) of a node in the visited list. -/
def listRank : List ℤ → ℤ → ℕ
  | [], _ => 0
  | y :: ys, x => if y = x then 0 else listRank ys x + 1

/-- Every adjacency entry points back into the node map (established by
`buildGraph`, consumed by the Dijkstra invariants). -/
def adjClosed (g : GraphEngine) : Prop :=
  ∀ p ∈ g.adjacency, ∀ e ∈ p.2, e.neighbor ∈ nodeKeys g

/-- The Dijkstra loop invariant over the mutable state: predecessor targets are
unexcluded (or the destination), predecessor values relaxed unexcluded (or an
endpoint), predecessors point to earlier-visited nodes with strictly smaller
visit rank, the only visited node without a predecessor is `src`, queue entries
name recorded graph nodes, every node with a finite distance is visited or
still queued, and the visit sequence is seeded by popping `src` first. -/
structure DInv (keys : List ℤ) (src dst : ℤ) (excl : List ℤ) (s : DState) : Prop where
  prev_excl : ∀ x y, s.prev x = some y → (x ∉ excl ∨ x = dst)
  prev_val_excl : ∀ x y, s.prev x = some y → (y ∉ excl ∨ y = src ∨ y = dst)
  prev_vis : ∀ x y, s.prev x = some y → y ∈ s.visited
  vis_prev : ∀ x, x ∈ s.visited → x ≠ src → s.prev x ≠ none
  prev_src : s.prev src = none
  rank_lt : ∀ x y, s.prev x = some y → x ∈ s.visited →
    listRank s.visited y < listRank s.visited x
  queue_ok : ∀ q ∈ s.queue, (q.2 = src ∨ s.prev q.2 ≠ none)
  queue_keys : ∀ q ∈ s.queue, q.2 ∈ keys
  vis_keys : ∀ x ∈ s.visited, x ∈ keys
  reach : ∀ x, s.dist x ≠ none → x ∉ s.visited → ∃ d, (d, x) ∈ s.queue
  src_base : src ∈ s.visited ∨ (s.visited = [] ∧ s.queue = [(0, src)])

/-! ### Concrete instances used by counterexamples and witnesses -/

/-- C10: a two-node topology whose edge node has id `0`. -/
def c10topo : TopologyData :=
  { nodes := [{ id := 0, tier := Tier.edge }, { id := 1, tier := Tier.cloud }],
    links := [{ u := 0, v := 1, bw_mbps := 100, delay_ms := 5 }] }

def c10eng : GraphEngine :=
  buildGraph
    { nodes := [(0, { id := 0, tier := Tier.edge }), (1, { id := 1, tier := Tier.cloud })],
      links := [{ u := 0, v := 1, bw_mbps := 100, delay_ms := 5 }],
      adjacency := [] }

/-- C5: an edge node and a cloud node with no link between them. -/
def c5topo : TopologyData :=
  { nodes := [{ id := 1, tier := Tier.edge }, { id := 2, tier := Tier.cloud }],
    links := [] }

def c5eng : GraphEngine :=
  buildGraph
    { nodes := [(1, { id := 1, tier := Tier.edge }), (2, { id := 2, tier := Tier.cloud })],
      links := [], adjacency := [] }

/-- C8 counterexample: node id `0` as source, a fork behind shared node `2`. -/
def c8xeng : GraphEngine :=
  buildGraph
    { nodes := [(0, { id := 0, tier := Tier.edge }), (2, { id := 2, tier := Tier.core }),
                (3, { id := 3, tier := Tier.core }), (4, { id := 4, tier := Tier.core }),
                (5, { id := 5, tier := Tier.cloud })],
      links := [{ u := 0, v := 2, bw_mbps := 100, delay_ms := 1 },
                { u := 2, v := 3, bw_mbps := 100, delay_ms := 1 },
                { u := 3, v := 5, bw_mbps := 100, delay_ms := 1 },
                { u := 2, v := 4, bw_mbps := 100, delay_ms := 5 },
                { u := 4, v := 5, bw_mbps := 100, delay_ms := 5 }],
      adjacency := [] }

/-- The adjacency list `buildGraph` computes for `c8xeng` (checked by `rfl` in
the counterexample below); naming it keeps the staged Dijkstra evaluation
readable. -/
def c8adj : List (ℤ × List AdjEntry) :=
  [(0, [{ neighbor := 2, link := { u := 0, v := 2, bw_mbps := 100, delay_ms := 1 } }]),
   (2, [{ neighbor := 0, link := { u := 0, v := 2, bw_mbps := 100, delay_ms := 1 } },
        { neighbor := 3, link := { u := 2, v := 3, bw_mbps := 100, delay_ms := 1 } },
        { neighbor := 4, link := { u := 2, v := 4, bw_mbps := 100, delay_ms := 5 } }]),
   (3, [{ neighbor := 2, link := { u := 2, v := 3, bw_mbps := 100, delay_ms := 1 } },
        { neighbor := 5, link := { u := 3, v := 5, bw_mbps := 100, delay_ms := 1 } }]),
   (4, [{ neighbor := 2, link := { u := 2, v := 4, bw_mbps := 100, delay_ms := 5 } },
        { neighbor := 5, link := { u := 4, v := 5, bw_mbps := 100, delay_ms := 5 } }]),
   (5, [{ neighbor := 3, link := { u := 3, v := 5, bw_mbps := 100, delay_ms := 1 } },
        { neighbor := 4, link := { u := 4, v := 5, bw_mbps := 100, delay_ms := 5 } }])]

/-- C8 witness: the same fork with all node ids nonzero. -/
def c8wtopo : TopologyData :=
  { nodes := [{ id := 1, tier := Tier.edge }, { id := 2, tier := Tier.core },
              { id := 3, tier := Tier.core }, { id := 4, tier := Tier.core },
              { id := 5, tier := Tier.cloud }],
    links := [{ u := 1, v := 2, bw_mbps := 100, delay_ms := 1 },
              { u := 2, v := 3, bw_mbps := 100, delay_ms := 1 },
              { u := 3, v := 5, bw_mbps := 100, delay_ms := 1 },
              { u := 2, v := 4, bw_mbps := 100, delay_ms := 5 },
              { u := 4, v := 5, bw_mbps := 100, delay_ms := 5 }] }

/-- C3: a recovering path whose recovery started at `t = 1000` ms. -/
def c3ex : Controller :=
  { windowSize := 10, alpha := 0.3, ewmaMaxMs := 100, slopeMinMsPerS := 5,
    holdSec := 3, cpuMax := 0.85, bufMaxPct := 0.8,
    paths := [(0, { nodeIds := [1, 9, 19], ewma := 50, slope := 0, loadPercentage := 50,
                    status := PathStatus.recovering, lastFailureTime := 0,
                    lastRecoveryTime := 1000, latencyWindow := [] })],
    optimalDistribution := [(0, 50)] }

/-- C3 witness: a recovering path far past the stability window. -/
def c3wm : PathMetrics :=
  { nodeIds := [1, 9, 19], ewma := 50, slope := 0, loadPercentage := 50,
    status := PathStatus.recovering, lastFailureTime := 0,
    lastRecoveryTime := 0, latencyWindow := [] }

def c3wex : Controller :=
  { windowSize := 10, alpha := 0.3, ewmaMaxMs := 100, slopeMinMsPerS := 5,
    holdSec := 3, cpuMax := 0.85, bufMaxPct := 0.8,
    paths := [(0, c3wm)],
    optimalDistribution := [(0, 50)] }

/-- C4: both paths degraded (and staying degraded: high EWMA, fresh failure),
with a distribution far from the uniform 50/50 split. -/
def c4ex : Controller :=
  { windowSize := 10, alpha := 0.3, ewmaMaxMs := 100, slopeMinMsPerS := 5,
    holdSec := 3, cpuMax := 0.85, bufMaxPct := 0.8,
    paths := [(0, { nodeIds := [1, 9, 19], ewma := 150, slope := 6, loadPercentage := 80,
                    status := PathStatus.degraded, lastFailureTime := 0,
                    lastRecoveryTime := 0, latencyWindow := [] }),
              (1, { nodeIds := [1, 10, 20], ewma := 150, slope := 6, loadPercentage := 20,
                    status := PathStatus.degraded, lastFailureTime := 0,
                    lastRecoveryTime := 0, latencyWindow := [] })],
    optimalDistribution := [(0, 50), (1, 50)] }

/-- C9: a fresh controller (no samples yet) with the default α. -/
def c9c0 : Controller :=
  { windowSize := 10, alpha := 0.3, ewmaMaxMs := 100, slopeMinMsPerS := 5,
    holdSec := 3, cpuMax := 0.85, bufMaxPct := 0.8 }

/-- C9 witness: `c9c0` with one registered path. -/
def c9wc : Controller := registerPath c9c0 0 [1, 9, 19] 100

/-- The path record that `registerPath` installs in `c9wc`. -/
def c9wm : PathMetrics :=
  { nodeIds := [1, 9, 19], ewma := 0, slope := 0, loadPercentage := 100,
    status := PathStatus.healthy, lastFailureTime := 0, lastRecoveryTime := 0,
    latencyWindow := [] }

/-- C6/C7: three registered paths, path 0 currently violating the degradation
predicate, paths 1 and 2 healthy with loads 30 and 20. -/
def c6ex : Controller :=
  { windowSize := 10, alpha := 0.3, ewmaMaxMs := 100, slopeMinMsPerS := 5,
    holdSec := 3, cpuMax := 0.85, bufMaxPct := 0.8,
    paths := [(0, { nodeIds := [1, 9, 19], ewma := 150, slope := 10, loadPercentage := 50,
                    status := PathStatus.healthy, lastFailureTime := 0,
                    lastRecoveryTime := 0, latencyWindow := [] }),
              (1, { nodeIds := [1, 10, 20], ewma := 50, slope := 0, loadPercentage := 30,
                    status := PathStatus.healthy, lastFailureTime := 0,
                    lastRecoveryTime := 0, latencyWindow := [] }),
              (2, { nodeIds := [1, 11, 21], ewma := 50, slope := 0, loadPercentage := 20,
                    status := PathStatus.healthy, lastFailureTime := 0,
                    lastRecoveryTime := 0, latencyWindow := [] })],
    optimalDistribution := [(0, 50), (1, 30), (2, 20)] }

/-- C6: an oracle handing back one fixed alternative path, accepting any path. -/
def c6oracle : GraphOracle :=
  { findK := fun _ _ _ _ =>
      [{ nodeIds := [1, 10, 20], latency := 10, capacity := 100, score := 100,
         status := GPathStatus.active }],
    isValid := fun _ => true }

/-- C6 witness for the all-degraded clause: every registered path degraded. -/
def c6allex : Controller :=
  { windowSize := 10, alpha := 0.3, ewmaMaxMs := 100, slopeMinMsPerS := 5,
    holdSec := 3, cpuMax := 0.85, bufMaxPct := 0.8,
    paths := [(0, { nodeIds := [1, 9, 19], ewma := 150, slope := 10, loadPercentage := 60,
                    status := PathStatus.degraded, lastFailureTime := 0,
                    lastRecoveryTime := 0, latencyWindow := [] }),
              (1, { nodeIds := [1, 10, 20], ewma := 180, slope := 10, loadPercentage := 40,
                    status := PathStatus.degraded, lastFailureTime := 0,
                    lastRecoveryTime := 0, latencyWindow := [] })],
    optimalDistribution := [(0, 50), (1, 50)] }

/-- C7 witness (revert side): path 0 healthy again at 5% against an optimal 50%,
so a revert schedule is produced. -/
def c7rex : Controller :=
  { windowSize := 10, alpha := 0.3, ewmaMaxMs := 100, slopeMinMsPerS := 5,
    holdSec := 3, cpuMax := 0.85, bufMaxPct := 0.8,
    paths := [(0, { nodeIds := [1, 9, 19], ewma := 50, slope := 0, loadPercentage := 5,
                    status := PathStatus.healthy, lastFailureTime := 0,
                    lastRecoveryTime := 0, latencyWindow := [] }),
              (1, { nodeIds := [1, 10, 20], ewma := 50, slope := 0, loadPercentage := 57,
                    status := PathStatus.healthy, lastFailureTime := 0,
                    lastRecoveryTime := 0, latencyWindow := [] }),
              (2, { nodeIds := [1, 11, 21], ewma := 50, slope := 0, loadPercentage := 38,
                    status := PathStatus.healthy, lastFailureTime := 0,
                    lastRecoveryTime := 0, latencyWindow := [] })],
    optimalDistribution := [(0, 50), (1, 30), (2, 20)] }

/-! # Theorems

First a toolbox of lemmas about the JS-collection embeddings, then the claim
theorems, witnesses and counterexamples. -/

theorem assocFind_append {α β : Type} [DecidableEq α] (a b : List (α × β)) (k : α) :
    assocFind (a ++ b) k =
      match assocFind a k with
      | some v => some v
      | none => assocFind b k := by
  induction a with
  | nil => simp [assocFind]
  | cons e rest ih =>
    by_cases h : e.1 = k
    · simp [assocFind, h]
    · simp [assocFind, h, ih]

theorem assocFind_eq_none {α β : Type} [DecidableEq α] (m : List (α × β)) (k : α)
    (h : ∀ e ∈ m, e.1 ≠ k) : assocFind m k = none := by
  induction m with
  | nil => rfl
  | cons e rest ih =>
    have h1 : e.1 ≠ k := h e (List.mem_cons_self e rest)
    simp only [assocFind, if_neg h1]
    exact ih (fun x hx => h x (List.mem_cons_of_mem e hx))

theorem assocFind_mem {α β : Type} [DecidableEq α] (m : List (α × β)) (k : α) (v : β)
    (h : assocFind m k = some v) : (k, v) ∈ m := by
  induction m with
  | nil => cases h
  | cons e rest ih =>
    by_cases he : e.1 = k
    · simp only [assocFind, if_pos he] at h
      have hv : v = e.2 := by injection h with h2; exact h2.symm
      subst hv
      have hke : (k, e.2) = e := by
        cases e
        simp_all
      rw [hke]
      exact List.mem_cons_self e rest
    · simp only [assocFind, if_neg he] at h
      exact List.mem_cons_of_mem e (ih h)

theorem assocFind_map_entry {α β : Type} [DecidableEq α] (m : List (α × β))
    (f : α × β → β) (k : α) :
    assocFind (m.map (fun e => (e.1, f e))) k = (assocFind m k).map (fun v => f (k, v)) := by
  induction m with
  | nil => rfl
  | cons e rest ih =>
    by_cases he : e.1 = k
    · subst he
      simp [assocFind, ih]
    · simp [assocFind, he, ih]

theorem jsMapSet_cons_ne {α β : Type} [DecidableEq α] (e : α × β) (rest : List (α × β))
    (k : α) (v : β) (h : e.1 ≠ k) :
    jsMapSet (e :: rest) k v = e :: jsMapSet rest k v := by
  by_cases ha : rest.any (fun x => decide (x.1 = k)) = true
  · simp [jsMapSet, List.any_cons, h, ha]
  · simp only [Bool.not_eq_true] at ha
    simp [jsMapSet, List.any_cons, h, ha]

theorem assocFind_jsMapSet_self {α β : Type} [DecidableEq α] (m : List (α × β))
    (k : α) (v : β) : assocFind (jsMapSet m k v) k = some v := by
  induction m with
  | nil => simp [jsMapSet, assocFind]
  | cons e rest ih =>
    by_cases h : e.1 = k
    · simp [jsMapSet, h, assocFind]
    · rw [jsMapSet_cons_ne e rest k v h]
      simp [assocFind, h, ih]

theorem assocFind_map_overwrite {α β : Type} [DecidableEq α] (m : List (α × β))
    (k : α) (v : β) (x : α) (h : x ≠ k) :
    assocFind (m.map (fun e => if e.1 = k then (k, v) else e)) x = assocFind m x := by
  induction m with
  | nil => rfl
  | cons e rest ih =>
    by_cases he : e.1 = k
    · have hkx : ¬ (k = x) := fun hh => h hh.symm
      have hex : ¬ (e.1 = x) := by rw [he]; exact hkx
      simp [assocFind, he, hkx, hex, ih]
    · by_cases hex : e.1 = x
      · simp only [List.map_cons, if_neg he, assocFind, if_pos hex]
      · simp only [List.map_cons, if_neg he, assocFind, if_neg hex]
        exact ih

theorem assocFind_jsMapSet_ne {α β : Type} [DecidableEq α] (m : List (α × β))
    (k : α) (v : β) (x : α) (h : x ≠ k) :
    assocFind (jsMapSet m k v) x = assocFind m x := by
  unfold jsMapSet
  split
  · exact assocFind_map_overwrite m k v x h
  · rw [assocFind_append]
    cases hfind : assocFind m x with
    | some w => rfl
    | none =>
      have hkx : ¬ (k = x) := fun hh => h hh.symm
      simp [assocFind, hkx]

theorem jsMapSet_map_fst {α β : Type} [DecidableEq α] (m : List (α × β)) (k : α) (v : β) :
    (jsMapSet m k v).map Prod.fst = m.map Prod.fst
      ∨ (jsMapSet m k v).map Prod.fst = m.map Prod.fst ++ [k] := by
  unfold jsMapSet
  split
  · left
    rw [List.map_map]
    apply List.map_congr_left
    intro e _
    by_cases he : e.1 = k
    · simp [he]
    · simp [he]
  · right
    simp

theorem jsMapSet_fst_nodup {α β : Type} [DecidableEq α] (m : List (α × β)) (k : α) (v : β)
    (h : (m.map Prod.fst).Nodup) : ((jsMapSet m k v).map Prod.fst).Nodup := by
  unfold jsMapSet
  split
  · rw [List.map_map]
    have : (m.map (Prod.fst ∘ fun e => if e.1 = k then (k, v) else e)) = m.map Prod.fst := by
      apply List.map_congr_left
      intro e _
      by_cases he : e.1 = k
      · simp [he]
      · simp [he]
    rw [this]
    exact h
  · rename_i hany
    rw [List.map_append]
    simp only [List.map_cons, List.map_nil]
    apply List.Nodup.append h (List.nodup_singleton k)
    intro x hx hk
    simp only [List.mem_singleton] at hk
    subst hk
    apply hany
    rw [List.any_eq_true]
    rcases List.mem_map.mp hx with ⟨e, he, hfst⟩
    exact ⟨e, he, by simp [hfst]⟩

theorem jsUniqueGo_mem {α : Type} [DecidableEq α] (l : List α) :
    ∀ (seen : List α) (x : α), x ∈ jsUniqueGo seen l ↔ (x ∈ l ∧ x ∉ seen) := by
  induction l with
  | nil => intro seen x; simp [jsUniqueGo]
  | cons y ys ih =>
    intro seen x
    by_cases hy : y ∈ seen
    · simp only [jsUniqueGo, if_pos hy]
      rw [ih]
      constructor
      · rintro ⟨h1, h2⟩
        exact ⟨List.mem_cons_of_mem y h1, h2⟩
      · rintro ⟨h1, h2⟩
        rcases List.mem_cons.mp h1 with h | h
        · subst h; exact absurd hy h2
        · exact ⟨h, h2⟩
    · simp only [jsUniqueGo, if_neg hy, List.mem_cons]
      rw [ih]
      constructor
      · rintro (h | ⟨h1, h2⟩)
        · subst h; exact ⟨Or.inl rfl, hy⟩
        · refine ⟨Or.inr h1, fun hs => h2 (by simp [hs])⟩
      · rintro ⟨h1, h2⟩
        rcases h1 with h | h
        · exact Or.inl h
        · by_cases hxy : x = y
          · exact Or.inl hxy
          · exact Or.inr ⟨h, by simp [h2, hxy]⟩

theorem jsUniqueGo_nodup {α : Type} [DecidableEq α] (l : List α) :
    ∀ seen : List α, (jsUniqueGo seen l).Nodup := by
  induction l with
  | nil => intro seen; simp [jsUniqueGo]
  | cons y ys ih =>
    intro seen
    by_cases hy : y ∈ seen
    · simp only [jsUniqueGo, if_pos hy]
      exact ih seen
    · simp only [jsUniqueGo, if_neg hy]
      refine List.Nodup.cons ?_ (ih (seen ++ [y]))
      intro hmem
      have := (jsUniqueGo_mem ys (seen ++ [y]) y).mp hmem
      exact this.2 (by simp)

theorem jsUnique_mem {α : Type} [DecidableEq α] (l : List α) (x : α) :
    x ∈ jsUnique l ↔ x ∈ l := by
  unfold jsUnique
  rw [jsUniqueGo_mem]
  simp

theorem jsUnique_nodup {α : Type} [DecidableEq α] (l : List α) : (jsUnique l).Nodup :=
  jsUniqueGo_nodup l []

theorem bumpCount_getD_self (m : List (ℤ × ℕ)) (n : ℤ) :
    (assocFind (bumpCount m n) n).getD 0 = (assocFind m n).getD 0 + 1 := by
  unfold bumpCount
  rw [assocFind_jsMapSet_self]
  rfl

theorem bumpCount_getD_ne (m : List (ℤ × ℕ)) (n x : ℤ) (h : x ≠ n) :
    (assocFind (bumpCount m n) x).getD 0 = (assocFind m x).getD 0 := by
  unfold bumpCount
  rw [assocFind_jsMapSet_ne _ _ _ _ h]

theorem count_fold_nodup (l : List ℤ) (hl : l.Nodup) :
    ∀ (m : List (ℤ × ℕ)) (x : ℤ),
      (assocFind (l.foldl bumpCount m) x).getD 0
        = (assocFind m x).getD 0 + (if x ∈ l then 1 else 0) := by
  induction l with
  | nil => intro m x; simp
  | cons y ys ih =>
    intro m x
    have hyys : y ∉ ys := (List.nodup_cons.mp hl).1
    have hys : ys.Nodup := (List.nodup_cons.mp hl).2
    simp only [List.foldl_cons]
    rw [ih hys (bumpCount m y) x]
    by_cases hxy : x = y
    · subst hxy
      rw [bumpCount_getD_self]
      simp [hyys]
    · rw [bumpCount_getD_ne m y x hxy]
      simp [hxy]

theorem count_nodeCountOf_gen (D : List (List ℤ)) :
    ∀ (m : List (ℤ × ℕ)) (x : ℤ),
      (assocFind (D.foldl (fun m p => (jsUnique p).foldl bumpCount m) m) x).getD 0
        = (assocFind m x).getD 0 + D.countP (fun p => decide (x ∈ p)) := by
  induction D with
  | nil => intro m x; simp
  | cons p ps ih =>
    intro m x
    simp only [List.foldl_cons]
    rw [ih ((jsUnique p).foldl bumpCount m) x]
    rw [count_fold_nodup (jsUnique p) (jsUnique_nodup p) m x]
    have hmem : (x ∈ jsUnique p) = (x ∈ p) := by
      rw [jsUnique_mem]
    rw [List.countP_cons]
    by_cases hx : x ∈ p
    · simp [hmem, hx]
      omega
    · simp [hmem, hx]

theorem count_nodeCountOf (D : List (List ℤ)) (x : ℤ) :
    (assocFind (nodeCountOf D) x).getD 0 = D.countP (fun p => decide (x ∈ p)) := by
  unfold nodeCountOf
  rw [count_nodeCountOf_gen D [] x]
  simp [assocFind]

theorem nodeCountOf_fst_nodup_gen (D : List (List ℤ)) :
    ∀ (m : List (ℤ × ℕ)), (m.map Prod.fst).Nodup →
      (((D.foldl (fun m p => (jsUnique p).foldl bumpCount m) m)).map Prod.fst).Nodup := by
  have hbump : ∀ (l : List ℤ) (m : List (ℤ × ℕ)), (m.map Prod.fst).Nodup →
      ((l.foldl bumpCount m).map Prod.fst).Nodup := by
    intro l
    induction l with
    | nil => intro m hm; exact hm
    | cons y ys ih =>
      intro m hm
      simp only [List.foldl_cons]
      exact ih (bumpCount m y) (jsMapSet_fst_nodup _ _ _ hm)
  induction D with
  | nil => intro m hm; exact hm
  | cons p ps ih =>
    intro m hm
    simp only [List.foldl_cons]
    exact ih _ (hbump (jsUnique p) m hm)

theorem nodeCountOf_fst_nodup (D : List (List ℤ)) :
    ((nodeCountOf D).map Prod.fst).Nodup :=
  nodeCountOf_fst_nodup_gen D [] (by simp)

theorem assocFind_of_mem_nodup {α β : Type} [DecidableEq α] (m : List (α × β))
    (hm : (m.map Prod.fst).Nodup) (k : α) (v : β) (hmem : (k, v) ∈ m) :
    assocFind m k = some v := by
  induction m with
  | nil => cases hmem
  | cons e rest ih =>
    rcases List.mem_cons.mp hmem with h | h
    · subst h
      simp [assocFind]
    · have hk : k ∈ rest.map Prod.fst := List.mem_map.mpr ⟨(k, v), h, rfl⟩
      rw [List.map_cons] at hm
      have hcons := List.nodup_cons.mp hm
      have he : e.1 ≠ k := fun hc => hcons.1 (hc ▸ hk)
      simp only [assocFind, if_neg he]
      exact ih hcons.2 h

/-- C1, amended part: with two or more degraded paths, every returned bottleneck
node occurs in at least `max(2, ⌈0.5·|D|⌉)` of the paths (so in at least two of
them), but node sets are counted whole — shared endpoints qualify. -/
theorem findCommonNodes_threshold (D : List (List ℤ)) (x : ℤ)
    (hD : 2 ≤ D.length) (hx : x ∈ findCommonNodes D) :
    max 2 ((D.length + 1) / 2) ≤ D.countP (fun p => decide (x ∈ p)) := by
  have h0 : ¬ (D.length = 0) := by omega
  have h1 : ¬ (D.length = 1) := by omega
  unfold findCommonNodes at hx
  rw [if_neg h0, if_neg h1] at hx
  have hx2 := (perm_jsSort _ _).mem_iff.mp hx
  rcases List.mem_filterMap.mp hx2 with ⟨e, he, hcond⟩
  by_cases ht : max 2 ((D.length + 1) / 2) ≤ e.2
  · rw [if_pos ht] at hcond
    injection hcond with hex
    subst hex
    have hfind : assocFind (nodeCountOf D) e.1 = some e.2 := by
      apply assocFind_of_mem_nodup _ (nodeCountOf_fst_nodup D)
      exact (show (e.1, e.2) = e by rfl) ▸ he
    have := count_nodeCountOf D e.1
    rw [hfind] at this
    simp only [Option.getD_some] at this
    omega
  · rw [if_neg ht] at hcond
    cases hcond

/-- C1: for `|D| ≥ 2` the bottleneck set contains only nodes occurring in at
least `max(2, ⌈0.5·|D|⌉)` of the degraded paths' (whole) node sets — endpoints
included, since the source counts every node of each path, not only the
intermediate ones; for A = [1,9,19], B = [1,9,20] it returns `[1, 9]` (the
shared source node 1 qualifies alongside node 9). -/
theorem c1_bottleneck_spec :
    (∀ (D : List (List ℤ)) (x : ℤ), 2 ≤ D.length → x ∈ findCommonNodes D →
        max 2 ((D.length + 1) / 2) ≤ D.countP (fun p => decide (x ∈ p)))
    ∧ findCommonNodes [[1, 9, 19], [1, 9, 20]] = [1, 9] :=
  ⟨fun D x hD hx => findCommonNodes_threshold D x hD hx, by decide⟩

/-- C1 witness: node 9 belongs to the bottleneck set of A, B and meets the
threshold. -/
theorem c1_bottleneck_witness :
    max 2 ((([[1, 9, 19], [1, 9, 20]] : List (List ℤ)).length + 1) / 2)
      ≤ ([[1, 9, 19], [1, 9, 20]] : List (List ℤ)).countP (fun p => decide ((9 : ℤ) ∈ p)) :=
  c1_bottleneck_spec.1 [[1, 9, 19], [1, 9, 20]] 9 (by decide) (by decide)

/-- C1 counterexample: for A = [1,9,19], B = [1,9,20] the computed bottleneck
set contains node 1 — the source shared by both paths — and is not `[9]`. -/
theorem c1_bottleneck_counterexample :
    (1 : ℤ) ∈ findCommonNodes [[1, 9, 19], [1, 9, 20]]
    ∧ ([[1, 9, 19], [1, 9, 20]] : List (List ℤ)).all (fun p => p.headI = 1)
    ∧ findCommonNodes [[1, 9, 19], [1, 9, 20]] ≠ [9] := by decide

/-- C2 (amended): for a single degraded path, `findCommonNodes` short-circuits
and returns the path itself (all of its nodes), not the empty list. -/
theorem c2_singleton_spec : ∀ p : List ℤ, findCommonNodes [p] = p := by
  intro p
  simp [findCommonNodes]

/-- C2 counterexample: `findCommonNodes [[1,9,19]]` is the whole path, not `[]`. -/
theorem c2_singleton_counterexample :
    findCommonNodes [[1, 9, 19]] = [1, 9, 19] ∧ findCommonNodes [[1, 9, 19]] ≠ [] := by
  decide

/-- C5 (amended): on typed topology data, loading always succeeds — the
connectivity probe in `verifyConnectivity` only logs a warning, so a topology
without edge-to-cloud connectivity is still accepted. -/
theorem c5_load_spec : ∀ topo : TopologyData, ∃ g, loadTopology topo = Except.ok g :=
  fun _ => ⟨_, rfl⟩

/-- C5 counterexample: an edge node and a cloud node with no link between them —
no edge-to-cloud path exists, the connectivity probe reports failure, and yet
`loadTopology` succeeds. -/
theorem c5_load_counterexample :
    loadTopology c5topo = Except.ok c5eng
    ∧ (assocFind c5eng.nodes 1).map (fun n => n.tier) = some Tier.edge
    ∧ (assocFind c5eng.nodes 2).map (fun n => n.tier) = some Tier.cloud
    ∧ findShortestPath c5eng 1 2 [] = none
    ∧ verifyConnectivity c5eng = false := by
  refine ⟨by rfl, by decide, by decide, ?_, ?_⟩
  · simp [c5eng, findShortestPath, buildGraph, nodeKeys, adjPush, dijkstraLoop, jsSort,
      insertLe, adjGet, assocFind, relaxAll, relaxStep, ltInfinity, jsOrInfinity,
      walkPrev, prevStep]
  · simp [verifyConnectivity, c5eng, buildGraph, findShortestPath, nodeKeys, adjPush,
      dijkstraLoop, jsSort, insertLe, adjGet, assocFind, relaxAll, relaxStep,
      ltInfinity, jsOrInfinity, walkPrev, prevStep]

/-- C10: on the topology with node ids {0, 1} and the single link 0–1, the
shortest path from `src = 0` to `dst = 1` is returned as `[1]`: the JS
reconstruction loop coerces the falsy predecessor id `0` to `null`
(`previous.get(current) || null`), so the source node is dropped and the
returned sequence does not start with `src` (its last element is still `dst`). -/
theorem c10_path_endpoints_eval :
    (0 : ℤ) ∈ nodeKeys c10eng
    ∧ findShortestPath c10eng 0 1 [] = some [1]
    ∧ ([1] : List ℤ).headI ≠ 0
    ∧ ([1] : List ℤ).getLast? = some 1 := by
  refine ⟨by decide, ?_, by decide, by decide⟩
  simp [c10eng, findShortestPath, buildGraph, nodeKeys, adjPush, dijkstraLoop, jsSort,
    insertLe, adjGet, assocFind, relaxAll, relaxStep, ltInfinity, jsOrInfinity,
    walkPrev, prevStep]

/-- C3 (amended): the `recovering → healthy` transition performed by
`detectRecoveredPaths` fires exactly when `ewma < 0.6·ewmaMaxMs` and more than
`STABILITY_TIME_MS` has elapsed since `lastRecoveryTime`; the per-batch
`updatePathMetrics`, however, flips a recovering path to healthy whenever the
updated EWMA is below `0.6·ewmaMaxMs` (and the degradation predicate fails),
with no stability-time requirement. -/
theorem c3_recovery_guard :
    (∀ (c : Controller) (tNow : ℚ) (pid : ℕ) (m : PathMetrics),
        assocFind c.paths pid = some m → m.status = PathStatus.recovering →
        ((assocFind (detectRecoveredPaths c tNow).2.paths pid).map (fun mm => mm.status)
            = some PathStatus.healthy
          ↔ m.ewma < c.ewmaMaxMs * 0.6 ∧ tNow - m.lastRecoveryTime > STABILITY_TIME_MS))
    ∧ (∀ (c : Controller) (tNow : ℚ) (pid : ℕ) (m : PathMetrics) (x : ℚ),
        assocFind c.paths pid = some m → m.status = PathStatus.recovering →
        ¬ (nextEwma c m.ewma x > c.ewmaMaxMs
            ∧ nextPathSlope (pushWindow c m.latencyWindow tNow x) m.slope ≥ c.slopeMinMsPerS) →
        nextEwma c m.ewma x < c.ewmaMaxMs * 0.6 →
        (assocFind (updatePathMetrics c tNow pid x).paths pid).map (fun mm => mm.status)
          = some PathStatus.healthy) := by
  constructor
  · intro c tNow pid m hfind hst
    have hmap : assocFind (detectRecoveredPaths c tNow).2.paths pid
        = (assocFind c.paths pid).map (fun v => recoveryStep c tNow v) := by
      unfold detectRecoveredPaths
      exact assocFind_map_entry c.paths (fun e => recoveryStep c tNow e.2) pid
    rw [hmap, hfind]
    have hnd : ¬ (m.status = PathStatus.degraded) := by rw [hst]; decide
    show some (recoveryStep c tNow m).status = some PathStatus.healthy ↔ _
    unfold recoveryStep
    rw [if_neg hnd, if_pos hst]
    by_cases hcond : m.ewma < c.ewmaMaxMs * 0.6 ∧ tNow - m.lastRecoveryTime > STABILITY_TIME_MS
    · rw [if_pos hcond]
      simp [hcond]
    · rw [if_neg hcond]
      simp only [Option.some_inj]
      constructor
      · intro hh
        exact absurd (hst.symm.trans hh) (by decide)
      · intro hh
        exact absurd hh hcond
  · intro c tNow pid m x hfind hst hnotdeg hlow
    have hp : (updatePathMetrics c tNow pid x).paths
        = jsMapSet c.paths pid (perBatchPathUpdate c tNow x m) := by
      unfold updatePathMetrics
      rw [hfind]
    rw [hp, assocFind_jsMapSet_self]
    show some (perBatchPathUpdate c tNow x m).status = some PathStatus.healthy
    simp only [perBatchPathUpdate]
    rw [if_neg hnotdeg, if_pos ⟨hst, hlow⟩]

/-- C3 witness: a recovering path meeting both the EWMA and the stability
criteria is flipped to healthy by `detectRecoveredPaths`. -/
theorem c3_recovery_guard_witness :
    (assocFind (detectRecoveredPaths c3wex 20000).2.paths 0).map (fun mm => mm.status)
        = some PathStatus.healthy
      ↔ c3wm.ewma < c3wex.ewmaMaxMs * 0.6
        ∧ (20000 : ℚ) - c3wm.lastRecoveryTime > STABILITY_TIME_MS :=
  c3_recovery_guard.1 c3wex 20000 0 c3wm (by simp [c3wex, assocFind]) (by simp [c3wm])

/-- C3 counterexample: a path that entered `recovering` at `t = 1000` is moved
to `healthy` by a per-batch metric update at the very same instant — zero
elapsed stability time. -/
theorem c3_recovery_counterexample :
    (assocFind c3ex.paths 0).map (fun m => m.status) = some PathStatus.recovering
    ∧ (assocFind (updatePathMetrics c3ex 1000 0 50).paths 0).map (fun m => m.status)
        = some PathStatus.healthy
    ∧ (assocFind c3ex.paths 0).map (fun m => m.lastRecoveryTime) = some 1000
    ∧ (1000 : ℚ) - 1000 < STABILITY_TIME_MS := by
  refine ⟨by simp [c3ex, assocFind], ?_, by simp [c3ex, assocFind], by norm_num [STABILITY_TIME_MS]⟩
  norm_num [c3ex, updatePathMetrics, perBatchPathUpdate, pushWindow, nextEwma, nextPathSlope,
    slopeOfWindow, assocFind, jsMapSet]

theorem gradualRevert_none_of_all_degraded :
    ∀ (c : Controller) (tNow : ℚ),
      (∀ e ∈ (detectRecoveredPaths c tNow).2.paths, e.2.status = PathStatus.degraded) →
      (gradualRevert c tNow).1 = none := by
  intro c tNow hall
  have hh : ((detectRecoveredPaths c tNow).2.paths.any
      (fun e => decide (e.2.status = PathStatus.healthy ∨ e.2.status = PathStatus.recovering)))
      = false := by
    rw [List.any_eq_false]
    intro e he
    have hd := hall e he
    simp [hd]
  unfold gradualRevert
  simp only [hh]
  simp

/-- C4 (amended): when every registered path is degraded after the recovery
scan, `gradualRevert` returns no schedule at all — the uniform target is
computed but the `hasHealthyOrRecovering` guard makes the all-degraded branch
unreachable for a returned schedule. -/
theorem c4_all_degraded_revert :
    ∀ (c : Controller) (tNow : ℚ),
      (∀ e ∈ (detectRecoveredPaths c tNow).2.paths, e.2.status = PathStatus.degraded) →
      (gradualRevert c tNow).1 = none :=
  gradualRevert_none_of_all_degraded

/-- C4 witness: the concrete all-degraded controller yields no schedule. -/
theorem c4_all_degraded_witness : (gradualRevert c4ex 0).1 = none :=
  c4_all_degraded_revert c4ex 0
    (by norm_num [c4ex, detectRecoveredPaths, recoveryStep, RECOVERY_HOLD_TIME_MS])

/-- C4 counterexample: both paths degraded and staying degraded, the current
distribution [80, 20] differs from the uniform 50/50 target by 30 points, and
yet `gradualRevert` returns no transition schedule (the claim expects a
schedule targeting the uniform split). -/
theorem c4_all_degraded_counterexample :
    (c4ex.paths.all (fun e => e.2.status = PathStatus.degraded))
    ∧ ((detectRecoveredPaths c4ex 0).2.paths.all (fun e => e.2.status = PathStatus.degraded))
    ∧ revertCurrent c4ex = [(0, 80), (1, 20)]
    ∧ revertTarget (detectRecoveredPaths c4ex 0).2 = [(0, 50), (1, 50)]
    ∧ |(80 : ℚ) - 50| > 1
    ∧ (gradualRevert c4ex 0).1 = none := by
  refine ⟨by simp [c4ex], ?_, by simp [revertCurrent, c4ex], ?_, by norm_num, ?_⟩
  · norm_num [c4ex, detectRecoveredPaths, recoveryStep, RECOVERY_HOLD_TIME_MS]
  · norm_num [c4ex, detectRecoveredPaths, recoveryStep, RECOVERY_HOLD_TIME_MS, revertTarget,
      jsMapSet]
  · exact gradualRevert_none_of_all_degraded c4ex 0
      (by norm_num [c4ex, detectRecoveredPaths, recoveryStep, RECOVERY_HOLD_TIME_MS])

theorem updatePathMetrics_global (c : Controller) (tNow : ℚ) (pid : ℕ) (x : ℚ) :
    (updatePathMetrics c tNow pid x).ewma = c.ewma
    ∧ (updatePathMetrics c tNow pid x).alpha = c.alpha := by
  unfold updatePathMetrics
  cases h : assocFind c.paths pid with
  | none => exact ⟨rfl, rfl⟩
  | some m => exact ⟨rfl, rfl⟩

theorem addBatchLatency_ewma (c : Controller) (tNow x : ℚ) (pid : Option ℕ) :
    (addBatchLatency c tNow x pid).ewma = nextEwma c c.ewma x
    ∧ (addBatchLatency c tNow x pid).alpha = c.alpha := by
  unfold addBatchLatency updateSlope updateEWMA
  cases pid with
  | none =>
    simp only []
    repeat' split
    all_goals exact ⟨rfl, rfl⟩
  | some p =>
    simp only []
    repeat' split
    all_goals
      first
        | exact ⟨rfl, rfl⟩
        | (rw [(updatePathMetrics_global _ _ _ _).1, (updatePathMetrics_global _ _ _ _).2]
           exact ⟨rfl, rfl⟩)

theorem nextEwma_of_pos (c : Controller) (e x : ℚ) (halpha : c.alpha = 0.3)
    (he : 0 < e) (hx : 0 ≤ x) :
    nextEwma c e x = 0.3 * x + (1 - 0.3) * e ∧ 0 < nextEwma c e x := by
  unfold nextEwma
  rw [if_neg (by positivity), halpha]
  constructor
  · rfl
  · norm_num
    positivity

theorem feedBatches_global (xs : List ℚ) :
    ∀ (c : Controller) (tNow : ℚ) (pid : Option ℕ),
      c.alpha = 0.3 → 0 < c.ewma → (∀ x ∈ xs, 0 ≤ x) →
      (feedBatches c tNow pid xs).ewma = specEwmaFold 0.3 c.ewma xs
      ∧ 0 < (feedBatches c tNow pid xs).ewma := by
  induction xs with
  | nil => intro c tNow pid _ hpos _; exact ⟨rfl, hpos⟩
  | cons x rest ih =>
    intro c tNow pid halpha hpos hxs
    have hx : 0 ≤ x := hxs x (List.mem_cons_self x rest)
    have hnext := nextEwma_of_pos c c.ewma x halpha hpos hx
    have hstep := addBatchLatency_ewma c tNow x pid
    have halpha2 : (addBatchLatency c tNow x pid).alpha = 0.3 := by rw [hstep.2, halpha]
    have hpos2 : 0 < (addBatchLatency c tNow x pid).ewma := by rw [hstep.1]; exact hnext.2
    have hrest : ∀ y ∈ rest, 0 ≤ y := fun y hy => hxs y (List.mem_cons_of_mem x hy)
    unfold feedBatches
    have hout := ih (addBatchLatency c tNow x pid) tNow pid halpha2 hpos2 hrest
    refine ⟨?_, hout.2⟩
    rw [hout.1, hstep.1, hnext.1]
    unfold specEwmaFold
    rw [List.foldl_cons]

theorem updateEWMA_paths (c : Controller) (x : ℚ) : (updateEWMA c x).paths = c.paths := rfl

theorem updateSlope_paths (c : Controller) : (updateSlope c).paths = c.paths := by
  unfold updateSlope
  split
  · rfl
  · rfl

theorem perBatchPathUpdate_ewma (c : Controller) (tNow x : ℚ) (m : PathMetrics) :
    (perBatchPathUpdate c tNow x m).ewma = nextEwma c m.ewma x := by
  unfold perBatchPathUpdate
  simp only []
  split
  · rfl
  split
  · rfl
  · rfl

theorem addBatchLatency_path (c : Controller) (tNow x : ℚ) (pid : ℕ) (m : PathMetrics)
    (hfind : assocFind c.paths pid = some m) :
    assocFind (addBatchLatency c tNow x (some pid)).paths pid
      = some (perBatchPathUpdate { c with
          latencyWindow := pushWindow c c.latencyWindow tNow x,
          ewma := nextEwma c c.ewma x } tNow x m) := by
  unfold addBatchLatency
  simp only []
  set c0 : Controller :=
    { c with latencyWindow := pushWindow c c.latencyWindow tNow x, ewma := nextEwma c c.ewma x }
    with hc0
  have hc1paths : (updateSlope (updateEWMA { c with
      latencyWindow := pushWindow c c.latencyWindow tNow x } x)).paths = c.paths := by
    rw [updateSlope_paths, updateEWMA_paths]
  rw [show (updateEWMA { c with latencyWindow := pushWindow c c.latencyWindow tNow x } x)
      = c0 from rfl]
  rw [show (assocFind (updateSlope c0).paths pid) = assocFind c.paths pid by
    rw [updateSlope_paths]]
  rw [hfind]
  simp only [Option.isSome_some, if_pos]
  unfold updatePathMetrics
  have hp : assocFind (updateSlope c0).paths pid = some m := by rw [updateSlope_paths]; exact hfind
  rw [hp]
  simp only []
  rw [assocFind_jsMapSet_self]
  have hsame : perBatchPathUpdate (updateSlope c0) tNow x m = perBatchPathUpdate c0 tNow x m := by
    unfold updateSlope
    split
    · rfl
    · rfl
  rw [hsame]

theorem feedBatches_path (xs : List ℚ) :
    ∀ (c : Controller) (tNow : ℚ) (pid : ℕ) (m : PathMetrics),
      c.alpha = 0.3 → assocFind c.paths pid = some m → 0 < m.ewma → (∀ x ∈ xs, 0 ≤ x) →
      ∃ m', assocFind (feedBatches c tNow (some pid) xs).paths pid = some m'
        ∧ m'.ewma = specEwmaFold 0.3 m.ewma xs ∧ 0 < m'.ewma := by
  induction xs with
  | nil =>
    intro c tNow pid m _ hfind hpos _
    exact ⟨m, hfind, rfl, hpos⟩
  | cons x rest ih =>
    intro c tNow pid m halpha hfind hpos hxs
    have hx : 0 ≤ x := hxs x (List.mem_cons_self x rest)
    have hrest : ∀ y ∈ rest, 0 ≤ y := fun y hy => hxs y (List.mem_cons_of_mem x hy)
    have hlook := addBatchLatency_path c tNow x pid m hfind
    have halpha2 : (addBatchLatency c tNow x (some pid)).alpha = 0.3 := by
      rw [(addBatchLatency_ewma c tNow x (some pid)).2, halpha]
    set c0 : Controller :=
      { c with latencyWindow := pushWindow c c.latencyWindow tNow x, ewma := nextEwma c c.ewma x }
      with hc0
    have hm1ewma := perBatchPathUpdate_ewma c0 tNow x m
    have hnext := nextEwma_of_pos c0 m.ewma x halpha hpos hx
    unfold feedBatches
    obtain ⟨m', hfind', hewma', hpos'⟩ := ih (addBatchLatency c tNow x (some pid)) tNow pid
      (perBatchPathUpdate c0 tNow x m)
      halpha2 hlook (by rw [hm1ewma]; exact hnext.2) hrest
    refine ⟨m', hfind', ?_, hpos'⟩
    rw [hewma', hm1ewma, hnext.1]
    unfold specEwmaFold
    rw [List.foldl_cons]

/-- C9 (amended): with α = 0.3, the EWMA after the first sample equals the
sample (not blended with zero), and each subsequent value is
`0.3·x + 0.7·previous` within 1e-9 (the embedding computes it exactly), for the
aggregate and for a registered path's EWMA alike — provided the first sample is
positive and the rest nonnegative, since an EWMA of exactly `0` is the
"no sample yet" sentinel and would be re-seeded. -/
theorem c9_ewma_spec :
    ∀ (c : Controller) (tNow : ℚ) (pid : ℕ) (m : PathMetrics) (x1 : ℚ) (rest : List ℚ),
      c.alpha = 0.3 → c.ewma = 0 → assocFind c.paths pid = some m → m.ewma = 0 →
      0 < x1 → (∀ x ∈ rest, 0 ≤ x) →
      ((feedBatches c tNow (some pid) [x1]).ewma = x1)
      ∧ |(feedBatches c tNow (some pid) (x1 :: rest)).ewma - specEwmaFold 0.3 x1 rest| ≤ 1e-9
      ∧ ∃ m', assocFind (feedBatches c tNow (some pid) (x1 :: rest)).paths pid = some m'
            ∧ |m'.ewma - specEwmaFold 0.3 x1 rest| ≤ 1e-9 := by
  intro c tNow pid m x1 rest halpha hewma hfind hmewma hx1 hrest
  have hstep := addBatchLatency_ewma c tNow x1 (some pid)
  have hfirst : (addBatchLatency c tNow x1 (some pid)).ewma = x1 := by
    rw [hstep.1]
    unfold nextEwma
    rw [hewma]
    simp
  have halpha2 : (addBatchLatency c tNow x1 (some pid)).alpha = 0.3 := by
    rw [hstep.2, halpha]
  have hpos2 : 0 < (addBatchLatency c tNow x1 (some pid)).ewma := by
    rw [hfirst]; exact hx1
  refine ⟨?_, ?_, ?_⟩
  · show (feedBatches (addBatchLatency c tNow x1 (some pid)) tNow (some pid) []).ewma = x1
    exact hfirst
  · show |(feedBatches (addBatchLatency c tNow x1 (some pid)) tNow (some pid) rest).ewma
        - specEwmaFold 0.3 x1 rest| ≤ 1e-9
    have hg := feedBatches_global rest (addBatchLatency c tNow x1 (some pid)) tNow (some pid)
      halpha2 hpos2 hrest
    rw [hg.1, hfirst]
    simp
    norm_num
  · show ∃ m', assocFind (feedBatches (addBatchLatency c tNow x1 (some pid)) tNow
        (some pid) rest).paths pid = some m' ∧ |m'.ewma - specEwmaFold 0.3 x1 rest| ≤ 1e-9
    have hlook := addBatchLatency_path c tNow x1 pid m hfind
    set c0 : Controller :=
      { c with latencyWindow := pushWindow c c.latencyWindow tNow x1, ewma := nextEwma c c.ewma x1 }
      with hc0
    have hm1 := perBatchPathUpdate_ewma c0 tNow x1 m
    have hm1v : (perBatchPathUpdate c0 tNow x1 m).ewma = x1 := by
      rw [hm1]
      unfold nextEwma
      rw [hmewma]
      simp
    obtain ⟨m', hfind', hewma', _⟩ := feedBatches_path rest (addBatchLatency c tNow x1 (some pid))
      tNow pid _ halpha2 hlook (by rw [hm1v]; exact hx1) hrest
    refine ⟨m', hfind', ?_⟩
    rw [hewma', hm1v]
    simp
    norm_num

/-- C9 witness: feeding 100 then 50 yields aggregate and path EWMAs matching
the specified series. -/
theorem c9_ewma_witness :
    ((feedBatches c9wc 0 (some 0) [100]).ewma = 100)
    ∧ |(feedBatches c9wc 0 (some 0) [100, 50]).ewma - specEwmaFold 0.3 100 [50]| ≤ 1e-9
    ∧ ∃ m', assocFind (feedBatches c9wc 0 (some 0) [100, 50]).paths 0 = some m'
          ∧ |m'.ewma - specEwmaFold 0.3 100 [50]| ≤ 1e-9 :=
  c9_ewma_spec c9wc 0 0 c9wm 100 [50]
    (by norm_num [c9wc, registerPath, c9c0])
    (by norm_num [c9wc, registerPath, c9c0])
    (by simp [c9wc, registerPath, c9c0, jsMapSet, assocFind, c9wm])
    (by norm_num [c9wm])
    (by norm_num)
    (by norm_num)

/-- C9 counterexample: with a first sample of exactly `0`, the second sample is
treated as the first (the zero sentinel) — the computed EWMA is 10, not the
specified `0.3·10 + 0.7·0 = 3`. -/
theorem c9_ewma_counterexample :
    c9c0.ewma = 0
    ∧ (feedBatches c9c0 0 none [0, 10]).ewma = 10
    ∧ |(feedBatches c9c0 0 none [0, 10]).ewma - specEwmaFold 0.3 0 [10]| > 1e-9 := by
  refine ⟨rfl, ?_, ?_⟩ <;>
    norm_num [feedBatches, addBatchLatency, updateEWMA, updateSlope, nextEwma, pushWindow,
      slopeOfWindow, c9c0, specEwmaFold]

theorem sumMap_mul_right {α : Type} (l : List α) (f : α → ℚ) (r : ℚ) :
    (l.map (fun a => f a * r)).sum = (l.map f).sum * r := by
  induction l with
  | nil => simp
  | cons x xs ih =>
    simp only [List.map_cons, List.sum_cons, ih]
    ring

theorem sumMap_const {α : Type} (l : List α) (q : ℚ) :
    (l.map (fun _ => q)).sum = (l.length : ℚ) * q := by
  induction l with
  | nil => simp
  | cons x xs ih =>
    simp only [List.map_cons, List.sum_cons, ih, List.length_cons]
    push_cast
    ring

theorem sumVals_append {α : Type} (a b : List (α × ℚ)) :
    sumVals (a ++ b) = sumVals a + sumVals b := by
  unfold sumVals
  rw [List.map_append, List.sum_append]

theorem sumVals_scale {α : Type} (d : List (α × ℚ)) (r : ℚ) :
    sumVals (d.map (fun e => (e.1, e.2 * r))) = sumVals d * r := by
  unfold sumVals
  rw [List.map_map]
  exact sumMap_mul_right d (fun e => e.2) r

theorem sumVals_const {α : Type} (d : List (α × ℚ)) (q : ℚ) (h : ∀ e ∈ d, e.2 = q) :
    sumVals d = (d.length : ℚ) * q := by
  unfold sumVals
  rw [List.map_congr_left (fun e he => h e he), sumMap_const]

theorem renormalize_of_sum_100 (d : List (ℕ × ℚ)) (h : sumVals d = 100) :
    renormalize d = d := by
  unfold renormalize
  rw [h]
  norm_num

theorem renormalize_sum_close (d : List (ℕ × ℚ)) (h : sumVals d ≠ 0) :
    |sumVals (renormalize d) - 100| ≤ 0.01 := by
  unfold renormalize
  by_cases hfar : |sumVals d - 100| > 0.01
  · rw [if_pos hfar]
    have : sumVals (d.map (fun e => (e.1, e.2 * (100 / sumVals d)))) = 100 := by
      rw [sumVals_scale]
      field_simp
    rw [this]
    norm_num
  · rw [if_neg hfar]
    exact le_of_not_lt hfar

theorem sum_interp (l : List (ℕ × ℚ)) (g : ℕ → ℚ) (p : ℚ) :
    (l.map (fun e => e.2 + (g e.1 - e.2) * p)).sum
      = (l.map (fun e => e.2)).sum + ((l.map (fun e => g e.1)).sum - (l.map (fun e => e.2)).sum) * p := by
  induction l with
  | nil => simp
  | cons x xs ih =>
    simp only [List.map_cons, List.sum_cons, ih]
    ring

theorem filterMap_fst_sublist {α β : Type} (l : List (α × β)) (g : α × β → Option α)
    (hg : ∀ e, g e = none ∨ g e = some e.1) :
    (l.filterMap g).Sublist (l.map Prod.fst) := by
  induction l with
  | nil => simp
  | cons e rest ih =>
    rcases hg e with h | h
    · simp only [List.filterMap_cons, h, List.map_cons]
      exact ih.cons e.1
    · simp only [List.filterMap_cons, h, List.map_cons]
      exact ih.cons₂ e.1

theorem countP_nodup_subset (keys d : List ℕ) (hk : keys.Nodup) (hd : d.Nodup)
    (hsub : ∀ x ∈ d, x ∈ keys) :
    keys.countP (fun k => decide (k ∈ d)) = d.length := by
  have hperm : (keys.filter (fun k => decide (k ∈ d))).Perm d := by
    apply List.perm_of_nodup_nodup_toFinset_eq (hk.filter _) hd
    ext x
    simp only [List.mem_toFinset, List.mem_filter, decide_eq_true_eq]
    constructor
    · rintro ⟨_, h2⟩
      exact h2
    · intro h
      exact ⟨hsub x h, h⟩
  rw [List.countP_eq_length_filter, hperm.length_eq]

theorem detectDegradedPaths_fst (c : Controller) (tNow : ℚ) :
    (detectDegradedPaths c tNow).2.paths.map Prod.fst = c.paths.map Prod.fst := by
  unfold detectDegradedPaths
  simp only []
  rw [List.map_map]
  apply List.map_congr_left
  intro e _
  simp only [Function.comp_apply]
  by_cases h1 : e.2.ewma > c.ewmaMaxMs ∧ e.2.slope ≥ c.slopeMinMsPerS
  · rw [if_pos h1]
    by_cases h2 : e.2.status ≠ PathStatus.degraded
    · rw [if_pos h2]
    · rw [if_neg h2]
  · rw [if_neg h1]

theorem detectDegradedPaths_ids_sublist (c : Controller) (tNow : ℚ) :
    (detectDegradedPaths c tNow).1.Sublist (c.paths.map Prod.fst) := by
  unfold detectDegradedPaths
  simp only []
  apply filterMap_fst_sublist
  intro e
  by_cases h : e.2.ewma > c.ewmaMaxMs ∧ e.2.slope ≥ c.slopeMinMsPerS
  · right; rw [if_pos h]
  · left; rw [if_neg h]

theorem healthyIdsOf_sublist (c1 : Controller) (dIds : List ℕ) :
    (healthyIdsOf c1 dIds).Sublist (c1.paths.map Prod.fst) := by
  unfold healthyIdsOf
  apply filterMap_fst_sublist
  intro e
  by_cases h : e.1 ∈ dIds
  · left; rw [if_pos h]
  · right; rw [if_neg h]

theorem mem_healthyIdsOf (c1 : Controller) (dIds : List ℕ) (pid : ℕ) :
    pid ∈ healthyIdsOf c1 dIds ↔ (pid ∈ c1.paths.map Prod.fst ∧ pid ∉ dIds) := by
  unfold healthyIdsOf
  rw [List.mem_filterMap]
  constructor
  · rintro ⟨e, he, hcond⟩
    by_cases h : e.1 ∈ dIds
    · rw [if_pos h] at hcond; cases hcond
    · rw [if_neg h] at hcond
      injection hcond with h2
      subst h2
      exact ⟨List.mem_map.mpr ⟨e, he, rfl⟩, h⟩
  · rintro ⟨hmem, hnot⟩
    rcases List.mem_map.mp hmem with ⟨e, he, hfst⟩
    refine ⟨e, he, ?_⟩
    rw [hfst] at *
    rw [if_neg hnot]

theorem degradedDist_entries (c1 : Controller) (dIds : List ℕ) :
    ∀ en ∈ degradedDist c1 dIds, en.1 ∈ dIds ∧ en.2 = 5 := by
  unfold degradedDist
  intro en hen
  rcases List.mem_filterMap.mp hen with ⟨e, _, hcond⟩
  by_cases h : e.1 ∈ dIds
  · rw [if_pos h] at hcond
    injection hcond with h2
    subst h2
    exact ⟨h, rfl⟩
  · rw [if_neg h] at hcond; cases hcond

theorem degradedDist_length (c1 : Controller) (dIds : List ℕ) :
    (degradedDist c1 dIds).length = c1.paths.countP (fun e => decide (e.1 ∈ dIds)) := by
  unfold degradedDist
  induction c1.paths with
  | nil => simp
  | cons e rest ih =>
    by_cases h : e.1 ∈ dIds
    · simp only [List.filterMap_cons, if_pos h, List.length_cons, ih, List.countP_cons]
      simp [h]
    · simp only [List.filterMap_cons, if_neg h, ih, List.countP_cons]
      simp [h]

theorem sumVals_degradedDist (c1 : Controller) (dIds : List ℕ)
    (hk : (c1.paths.map Prod.fst).Nodup) (hd : dIds.Nodup)
    (hsub : ∀ x ∈ dIds, x ∈ c1.paths.map Prod.fst) :
    sumVals (degradedDist c1 dIds) = (dIds.length : ℚ) * 5 := by
  rw [sumVals_const _ 5 (fun e he => (degradedDist_entries c1 dIds e he).2)]
  rw [degradedDist_length]
  have hc : c1.paths.countP (fun e => decide (e.1 ∈ dIds))
      = (c1.paths.map Prod.fst).countP (fun k => decide (k ∈ dIds)) := by
    rw [List.countP_map]
    rfl
  rw [hc, countP_nodup_subset _ _ hk hd hsub]

theorem sumVals_healthyDist (c1 : Controller) (dIds : List ℕ)
    (hne : healthyIdsOf c1 dIds ≠ []) :
    sumVals (healthyDist c1 dIds) = 100 - (dIds.length : ℚ) * 5 := by
  unfold healthyDist sumVals
  rw [List.map_map]
  by_cases hpos : totalHealthyLoadOf c1 dIds > 0
  · have hcong : ((healthyIdsOf c1 dIds).map
        ((fun e => e.2) ∘ fun pid =>
          (pid, if totalHealthyLoadOf c1 dIds > 0 then
              loadOfPath c1 pid / totalHealthyLoadOf c1 dIds * (100 - (dIds.length : ℚ) * 5)
            else (100 - (dIds.length : ℚ) * 5) / ((healthyIdsOf c1 dIds).length : ℚ))))
        = ((healthyIdsOf c1 dIds).map
            (fun pid => loadOfPath c1 pid * ((100 - (dIds.length : ℚ) * 5) / totalHealthyLoadOf c1 dIds))) := by
      apply List.map_congr_left
      intro pid _
      simp only [Function.comp]
      rw [if_pos hpos]
      ring
    rw [hcong, sumMap_mul_right]
    have hsum : ((healthyIdsOf c1 dIds).map (loadOfPath c1)).sum = totalHealthyLoadOf c1 dIds := rfl
    rw [show ((healthyIdsOf c1 dIds).map fun pid => loadOfPath c1 pid)
        = (healthyIdsOf c1 dIds).map (loadOfPath c1) from rfl, hsum]
    field_simp
  · have hcong : ((healthyIdsOf c1 dIds).map
        ((fun e => e.2) ∘ fun pid =>
          (pid, if totalHealthyLoadOf c1 dIds > 0 then
              loadOfPath c1 pid / totalHealthyLoadOf c1 dIds * (100 - (dIds.length : ℚ) * 5)
            else (100 - (dIds.length : ℚ) * 5) / ((healthyIdsOf c1 dIds).length : ℚ))))
        = ((healthyIdsOf c1 dIds).map
            (fun _ => (100 - (dIds.length : ℚ) * 5) / ((healthyIdsOf c1 dIds).length : ℚ))) := by
      apply List.map_congr_left
      intro pid _
      simp only [Function.comp]
      rw [if_neg hpos]
    rw [hcong, sumMap_const]
    have hlen : ((healthyIdsOf c1 dIds).length : ℚ) ≠ 0 := by
      have := List.length_pos.mpr hne
      positivity
    field_simp

theorem sumVals_allDegradedDist (c1 : Controller) (dIds : List ℕ) :
    sumVals (allDegradedDist c1 dIds) = (c1.paths.length : ℚ) * (100 / (dIds.length : ℚ)) := by
  unfold allDegradedDist sumVals
  rw [List.map_map]
  have hc : ((fun e => e.2) ∘ fun (e : ℕ × PathMetrics) => (e.1, (100 : ℚ) / (dIds.length : ℚ)))
      = fun _ => (100 : ℚ) / (dIds.length : ℚ) := rfl
  rw [hc, sumMap_const]

theorem rebalancePaths_some (ge : GraphOracle) (c : Controller) (tNow : ℚ)
    (s d : ℤ) (dist : List (ℕ × ℚ)) (c' : Controller)
    (h : rebalancePaths ge c tNow s d = (some dist, c')) :
    (detectDegradedPaths c tNow).1 ≠ []
    ∧ ((healthyIdsOf (detectDegradedPaths c tNow).2 (detectDegradedPaths c tNow).1 = []
        ∧ dist = allDegradedDist (detectDegradedPaths c tNow).2 (detectDegradedPaths c tNow).1)
      ∨ (healthyIdsOf (detectDegradedPaths c tNow).2 (detectDegradedPaths c tNow).1 ≠ []
        ∧ dist = renormalize
            (degradedDist (detectDegradedPaths c tNow).2 (detectDegradedPaths c tNow).1
              ++ healthyDist (detectDegradedPaths c tNow).2 (detectDegradedPaths c tNow).1))) := by
  unfold rebalancePaths at h
  simp only [] at h
  split_ifs at h with h1 h2 h3 h4
  · exact absurd h (by simp)
  · exact absurd h (by simp)
  · exact absurd h (by simp)
  · simp only [Prod.mk.injEq, Option.some_inj] at h
    exact ⟨h1, Or.inl ⟨h4, h.1.symm⟩⟩
  · simp only [Prod.mk.injEq, Option.some_inj] at h
    exact ⟨h1, Or.inr ⟨h4, h.1.symm⟩⟩

theorem rebalance_sum_100 (ge : GraphOracle) (c : Controller) (tNow : ℚ)
    (s d : ℤ) (dist : List (ℕ × ℚ)) (c' : Controller)
    (hk : (c.paths.map Prod.fst).Nodup)
    (h : rebalancePaths ge c tNow s d = (some dist, c')) :
    sumVals dist = 100 := by
  obtain ⟨hne, hcase⟩ := rebalancePaths_some ge c tNow s d dist c' h
  have hk1 : ((detectDegradedPaths c tNow).2.paths.map Prod.fst).Nodup := by
    rw [detectDegradedPaths_fst]; exact hk
  have hsub : ∀ x ∈ (detectDegradedPaths c tNow).1,
      x ∈ (detectDegradedPaths c tNow).2.paths.map Prod.fst := by
    intro x hx
    rw [detectDegradedPaths_fst]
    exact (detectDegradedPaths_ids_sublist c tNow).subset hx
  have hdnodup : (detectDegradedPaths c tNow).1.Nodup :=
    (detectDegradedPaths_ids_sublist c tNow).nodup hk
  have hlenpos : (detectDegradedPaths c tNow).1.length ≠ 0 := by
    intro hz
    exact hne (List.length_eq_zero.mp hz)
  rcases hcase with ⟨hall, hdist⟩ | ⟨hhne, hdist⟩
  · -- every registered path degraded: even split
    have hcover : ∀ e ∈ (detectDegradedPaths c tNow).2.paths, e.1 ∈ (detectDegradedPaths c tNow).1 := by
      intro e he
      have := List.filterMap_eq_nil.mp hall e he
      by_cases hmem : e.1 ∈ (detectDegradedPaths c tNow).1
      · exact hmem
      · rw [if_neg hmem] at this
        cases this
    have hlen : ((detectDegradedPaths c tNow).2.paths.map Prod.fst).length
        = (detectDegradedPaths c tNow).1.length := by
      have hcp : ((detectDegradedPaths c tNow).2.paths.map Prod.fst).countP
          (fun k => decide (k ∈ (detectDegradedPaths c tNow).1))
          = (detectDegradedPaths c tNow).1.length :=
        countP_nodup_subset _ _ hk1 hdnodup hsub
      have hcl : ((detectDegradedPaths c tNow).2.paths.map Prod.fst).countP
          (fun k => decide (k ∈ (detectDegradedPaths c tNow).1))
          = ((detectDegradedPaths c tNow).2.paths.map Prod.fst).length := by
        rw [List.countP_eq_length]
        intro a ha
        rcases List.mem_map.mp ha with ⟨e, he, hfst⟩
        simp only [decide_eq_true_eq]
        rw [← hfst]
        exact hcover e he
      rw [← hcl, hcp]
    rw [hdist, sumVals_allDegradedDist]
    rw [show (detectDegradedPaths c tNow).2.paths.length
        = ((detectDegradedPaths c tNow).2.paths.map Prod.fst).length from (List.length_map _ _).symm]
    rw [hlen]
    have hq : ((detectDegradedPaths c tNow).1.length : ℚ) ≠ 0 := by
      exact_mod_cast hlenpos
    field_simp
  · -- healthy paths remain: 5% pins plus scaled remainder
    have hsum : sumVals (degradedDist (detectDegradedPaths c tNow).2 (detectDegradedPaths c tNow).1
        ++ healthyDist (detectDegradedPaths c tNow).2 (detectDegradedPaths c tNow).1) = 100 := by
      rw [sumVals_append, sumVals_degradedDist _ _ hk1 hdnodup hsub, sumVals_healthyDist _ _ hhne]
      ring
    rw [hdist, renormalize_of_sum_100 _ hsum]
    exact hsum

theorem gradualRevert_some (c : Controller) (tNow : ℚ) (sched : TransitionSchedule)
    (c' : Controller) (h : gradualRevert c tNow = (some sched, c')) :
    sched.steps = (List.range 5).map
      (fun (j : ℕ) =>
        ({ timestamp := tNow + ((j : ℚ) + 1) * (TRANSITION_DURATION_MS / ((5 : ℕ) : ℚ)),
           distribution := renormalize
             ((revertCurrent (detectRecoveredPaths c tNow).2).map
               (fun e =>
                 (e.1, e.2 + (recordGetD (revertTarget (detectRecoveredPaths c tNow).2) e.1 - e.2)
                   * (((j : ℚ) + 1) / ((5 : ℕ) : ℚ))))) } : TransitionStep)) := by
  unfold gradualRevert at h
  simp only [] at h
  split_ifs at h with h1
  · exact absurd h (by simp)
  · simp only [Prod.mk.injEq, Option.some_inj] at h
    rw [← h.1]

theorem gradualRevert_step_sum (c : Controller) (tNow : ℚ) (sched : TransitionSchedule)
    (c' : Controller)
    (hC : 0 < sumVals (revertCurrent (detectRecoveredPaths c tNow).2))
    (hT : 0 < revertTargetSum (detectRecoveredPaths c tNow).2)
    (h : gradualRevert c tNow = (some sched, c')) :
    ∀ st ∈ sched.steps, |sumVals st.distribution - 100| ≤ 0.01 := by
  intro st hst
  rw [gradualRevert_some c tNow sched c' h] at hst
  rcases List.mem_map.mp hst with ⟨j, hj, hstep⟩
  have hj5 : j < 5 := List.mem_range.mp hj
  have hp0 : 0 < ((j : ℚ) + 1) / ((5 : ℕ) : ℚ) := by positivity
  have hp1 : ((j : ℚ) + 1) / ((5 : ℕ) : ℚ) ≤ 1 := by
    rw [div_le_one (by norm_num)]
    have : (j : ℚ) ≤ 4 := by exact_mod_cast Nat.lt_succ_iff.mp hj5
    push_cast
    linarith
  have hinterp : sumVals
      ((revertCurrent (detectRecoveredPaths c tNow).2).map
        (fun e =>
          (e.1, e.2 + (recordGetD (revertTarget (detectRecoveredPaths c tNow).2) e.1 - e.2)
            * (((j : ℚ) + 1) / ((5 : ℕ) : ℚ)))))
      = sumVals (revertCurrent (detectRecoveredPaths c tNow).2)
        + (revertTargetSum (detectRecoveredPaths c tNow).2
            - sumVals (revertCurrent (detectRecoveredPaths c tNow).2))
          * (((j : ℚ) + 1) / ((5 : ℕ) : ℚ)) := by
    unfold sumVals
    rw [List.map_map]
    have hcomp : ((fun e => e.2) ∘ fun (e : ℕ × ℚ) =>
        (e.1, e.2 + (recordGetD (revertTarget (detectRecoveredPaths c tNow).2) e.1 - e.2)
          * (((j : ℚ) + 1) / ((5 : ℕ) : ℚ))))
        = fun (e : ℕ × ℚ) => e.2 + (recordGetD (revertTarget (detectRecoveredPaths c tNow).2) e.1 - e.2)
          * (((j : ℚ) + 1) / ((5 : ℕ) : ℚ)) := rfl
    rw [hcomp, sum_interp]
    have htarget : ((revertCurrent (detectRecoveredPaths c tNow).2).map
        (fun e => recordGetD (revertTarget (detectRecoveredPaths c tNow).2) e.1))
        = (detectRecoveredPaths c tNow).2.paths.map
            (fun e => recordGetD (revertTarget (detectRecoveredPaths c tNow).2) e.1) := by
      unfold revertCurrent
      rw [List.map_map]
      rfl
    rw [htarget]
    rfl
  have htotpos : 0 < sumVals
      ((revertCurrent (detectRecoveredPaths c tNow).2).map
        (fun e =>
          (e.1, e.2 + (recordGetD (revertTarget (detectRecoveredPaths c tNow).2) e.1 - e.2)
            * (((j : ℚ) + 1) / ((5 : ℕ) : ℚ))))) := by
    rw [hinterp]
    nlinarith [mul_nonneg (sub_nonneg.mpr hp1) hC.le, mul_pos hp0 hT]
  rw [← hstep]
  exact renormalize_sum_close _ (ne_of_gt htotpos)

/-- C7: after every completed rebalance (one that returns a new distribution)
the returned loads sum to within 0.01 of 100 (in fact exactly 100), given
distinct registered path ids; and every step distribution emitted by
`gradualRevert` sums to within 0.01 of 100, given that the pre-existing loads
and the target loads each sum to a positive total. -/
theorem c7_sum_spec :
    (∀ (ge : GraphOracle) (c : Controller) (tNow : ℚ) (s d : ℤ)
        (dist : List (ℕ × ℚ)) (c' : Controller),
      (c.paths.map Prod.fst).Nodup →
      rebalancePaths ge c tNow s d = (some dist, c') →
      |sumVals dist - 100| ≤ 0.01)
    ∧ (∀ (c : Controller) (tNow : ℚ) (sched : TransitionSchedule) (c' : Controller),
      0 < sumVals (revertCurrent (detectRecoveredPaths c tNow).2) →
      0 < revertTargetSum (detectRecoveredPaths c tNow).2 →
      gradualRevert c tNow = (some sched, c') →
      ∀ st ∈ sched.steps, |sumVals st.distribution - 100| ≤ 0.01) := by
  constructor
  · intro ge c tNow s d dist c' hk h
    rw [rebalance_sum_100 ge c tNow s d dist c' hk h]
    norm_num
  · intro c tNow sched c' hC hT h
    exact gradualRevert_step_sum c tNow sched c' hC hT h

theorem c7_sum_witness :
    |sumVals (((rebalancePaths c6oracle c6ex 0 1 19).1).getD []) - 100| ≤ 0.01
    ∧ ∀ st ∈ (((gradualRevert c7rex 0).1).getD
        { steps := [], durationMs := 0, startTime := 0 }).steps,
      |sumVals st.distribution - 100| ≤ 0.01 := by
  constructor
  · have hfst : (rebalancePaths c6oracle c6ex 0 1 19).1
        = some [((0 : ℕ), (5 : ℚ)), (1, 57), (2, 38)] := by
      norm_num +decide [rebalancePaths, detectDegradedPaths, degradedNodeLists, findCommonNodes,
        nodeCountOf, bumpCount, jsUnique, jsUniqueGo, jsSort, insertLe, jsMapSet, assocFind,
        healthyIdsOf, loadOfPath, totalHealthyLoadOf, degradedDist, healthyDist,
        allDegradedDist, renormalize, sumVals, c6oracle, c6ex, RECOVERY_HOLD_TIME_MS,
        STABILITY_TIME_MS, List.filterMap_cons, List.filterMap_nil, Function.comp]
    have h : rebalancePaths c6oracle c6ex 0 1 19
        = (some [((0 : ℕ), (5 : ℚ)), (1, 57), (2, 38)],
           (rebalancePaths c6oracle c6ex 0 1 19).2) := by
      rw [← hfst]
    have hres := c7_sum_spec.1 c6oracle c6ex 0 1 19 _ _ (by simp [c6ex]) h
    rw [hfst]
    simpa using hres
  · have hg : ((gradualRevert c7rex 0).1).isSome = true := by
      norm_num [gradualRevert, detectRecoveredPaths, recoveryStep, revertCurrent,
        revertTarget, recordGetD, assocFind, jsMapSet, c7rex, RECOVERY_HOLD_TIME_MS,
        STABILITY_TIME_MS]
    cases ho : (gradualRevert c7rex 0).1 with
    | none => rw [ho] at hg; cases hg
    | some s0 =>
      have h : gradualRevert c7rex 0 = (some s0, (gradualRevert c7rex 0).2) := by
        rw [← ho]
      have hres := c7_sum_spec.2 c7rex 0 s0 _
        (by norm_num [revertCurrent, detectRecoveredPaths, recoveryStep, sumVals, c7rex,
            RECOVERY_HOLD_TIME_MS, STABILITY_TIME_MS])
        (by norm_num [revertTargetSum, revertTarget, revertCurrent, detectRecoveredPaths,
            recoveryStep, recordGetD, assocFind, jsMapSet, c7rex, RECOVERY_HOLD_TIME_MS,
            STABILITY_TIME_MS])
        h
      simpa using hres

theorem assocFind_map_self {α β : Type} [DecidableEq α] (l : List α) (v : α → β) (x : α)
    (hx : x ∈ l) :
    assocFind (l.map (fun k => (k, v k))) x = some (v x) := by
  induction l with
  | nil => cases hx
  | cons y ys ih =>
    simp only [List.map_cons, assocFind]
    by_cases h : y = x
    · subst h
      simp
    · rw [if_neg h]
      rcases List.mem_cons.mp hx with h1 | h1
      · exact absurd h1.symm h
      · exact ih h1

theorem assocFind_filterMap_pin {β : Type} (l : List (ℕ × β)) (dIds : List ℕ) (q : ℚ)
    (pid : ℕ) (hd : pid ∈ dIds) (hmem : pid ∈ l.map Prod.fst) :
    assocFind (l.filterMap (fun e => if e.1 ∈ dIds then some (e.1, q) else none)) pid
      = some q := by
  induction l with
  | nil => cases hmem
  | cons e rest ih =>
    rw [List.map_cons] at hmem
    by_cases hin : e.1 ∈ dIds
    · simp only [List.filterMap_cons, if_pos hin]
      by_cases he : e.1 = pid
      · simp [assocFind, he]
      · simp only [assocFind, if_neg he]
        apply ih
        rcases List.mem_cons.mp hmem with h1 | h1
        · exact absurd h1.symm he
        · exact h1
    · simp only [List.filterMap_cons, if_neg hin]
      apply ih
      rcases List.mem_cons.mp hmem with h1 | h1
      · exact absurd (h1 ▸ hd) hin
      · exact h1

theorem assocFind_degradedDist (c1 : Controller) (dIds : List ℕ) (pid : ℕ)
    (hd : pid ∈ dIds) (hmem : pid ∈ c1.paths.map Prod.fst) :
    assocFind (degradedDist c1 dIds) pid = some 5 :=
  assocFind_filterMap_pin c1.paths dIds 5 pid hd hmem

theorem assocFind_degradedDist_none (c1 : Controller) (dIds : List ℕ) (pid : ℕ)
    (hp : pid ∉ dIds) :
    assocFind (degradedDist c1 dIds) pid = none := by
  apply assocFind_eq_none
  intro e he hek
  exact hp (hek ▸ (degradedDist_entries c1 dIds e he).1)

theorem assocFind_healthyDist (c1 : Controller) (dIds : List ℕ) (pid : ℕ)
    (hpid : pid ∈ healthyIdsOf c1 dIds)
    (hpos : totalHealthyLoadOf c1 dIds > 0) :
    assocFind (healthyDist c1 dIds) pid
      = some ((loadOfPath c1 pid / totalHealthyLoadOf c1 dIds)
          * (100 - (dIds.length : ℚ) * 5)) := by
  unfold healthyDist
  rw [assocFind_map_self _ _ _ hpid, if_pos hpos]

theorem allDegradedDist_entries (c1 : Controller) (dIds : List ℕ) :
    ∀ en ∈ allDegradedDist c1 dIds, en.2 = 100 / (dIds.length : ℚ) := by
  intro en hen
  rcases List.mem_map.mp hen with ⟨e, _, hev⟩
  rw [← hev]

/-- C6: whenever the degradation scan `detectDegradedPaths` flags a non-empty
set of paths, at least one registered path is not degraded with a positive
total healthy load, and the graph oracle yields a non-empty, valid alternative
path set, `rebalancePaths` returns a distribution pinning every degraded path
to exactly 5% and giving every non-degraded path its previous share of the
healthy load scaled to fill `100 − 5·|D|` percent; and when every registered
path is degraded it returns the even split `100/|D|` per path. -/
theorem c6_rebalance_spec :
    (∀ (ge : GraphOracle) (c : Controller) (tNow : ℚ) (s d : ℤ)
        (dIds : List ℕ) (c1 : Controller),
      detectDegradedPaths c tNow = (dIds, c1) →
      (c.paths.map Prod.fst).Nodup →
      dIds ≠ [] →
      healthyIdsOf c1 dIds ≠ [] →
      totalHealthyLoadOf c1 dIds > 0 →
      ge.findK s d 5 (findCommonNodes (degradedNodeLists c1 dIds)) ≠ [] →
      (ge.findK s d 5 (findCommonNodes (degradedNodeLists c1 dIds))).filter
          (fun p => ge.isValid p.nodeIds) ≠ [] →
      ∃ dist c', rebalancePaths ge c tNow s d = (some dist, c')
        ∧ (∀ pid ∈ dIds, assocFind dist pid = some 5)
        ∧ (∀ pid ∈ healthyIdsOf c1 dIds,
            assocFind dist pid
              = some ((loadOfPath c1 pid / totalHealthyLoadOf c1 dIds)
                  * (100 - (dIds.length : ℚ) * 5))))
    ∧ (∀ (ge : GraphOracle) (c : Controller) (tNow : ℚ) (s d : ℤ)
        (dIds : List ℕ) (c1 : Controller),
      detectDegradedPaths c tNow = (dIds, c1) →
      dIds ≠ [] →
      healthyIdsOf c1 dIds = [] →
      ge.findK s d 5 (findCommonNodes (degradedNodeLists c1 dIds)) ≠ [] →
      (ge.findK s d 5 (findCommonNodes (degradedNodeLists c1 dIds))).filter
          (fun p => ge.isValid p.nodeIds) ≠ [] →
      rebalancePaths ge c tNow s d = (some (allDegradedDist c1 dIds), c1)
        ∧ ∀ en ∈ allDegradedDist c1 dIds, en.2 = 100 / (dIds.length : ℚ)) := by
  constructor
  · intro ge c tNow s d dIds c1 hdet hk hdne hhne hth hnp hvp
    have h1 : (detectDegradedPaths c tNow).1 = dIds := by rw [hdet]
    have h2 : (detectDegradedPaths c tNow).2 = c1 := by rw [hdet]
    have hk1 : (c1.paths.map Prod.fst).Nodup := by
      rw [← h2, detectDegradedPaths_fst]
      exact hk
    have hdnodup : dIds.Nodup := by
      rw [← h1]
      exact (detectDegradedPaths_ids_sublist c tNow).nodup hk
    have hsub : ∀ x ∈ dIds, x ∈ c1.paths.map Prod.fst := by
      intro x hx
      rw [← h2, detectDegradedPaths_fst]
      rw [← h1] at hx
      exact (detectDegradedPaths_ids_sublist c tNow).subset hx
    have hsum : sumVals (degradedDist c1 dIds ++ healthyDist c1 dIds) = 100 := by
      rw [sumVals_append, sumVals_degradedDist _ _ hk1 hdnodup hsub,
        sumVals_healthyDist _ _ hhne]
      ring
    unfold rebalancePaths
    simp only []
    rw [h1, h2, if_neg hdne, if_neg hnp, if_neg hvp, if_neg hhne]
    refine ⟨_, _, rfl, ?_, ?_⟩
    · intro pid hpid
      rw [renormalize_of_sum_100 _ hsum, assocFind_append,
        assocFind_degradedDist c1 dIds pid hpid (hsub pid hpid)]
    · intro pid hpid
      have hnd : pid ∉ dIds := ((mem_healthyIdsOf c1 dIds pid).mp hpid).2
      rw [renormalize_of_sum_100 _ hsum, assocFind_append,
        assocFind_degradedDist_none c1 dIds pid hnd,
        assocFind_healthyDist c1 dIds pid hpid hth]
  · intro ge c tNow s d dIds c1 hdet hdne hheq hnp hvp
    have h1 : (detectDegradedPaths c tNow).1 = dIds := by rw [hdet]
    have h2 : (detectDegradedPaths c tNow).2 = c1 := by rw [hdet]
    refine ⟨?_, allDegradedDist_entries c1 dIds⟩
    unfold rebalancePaths
    simp only []
    rw [h1, h2, if_neg hdne, if_neg hnp, if_neg hvp, if_pos hheq]

theorem c6_rebalance_witness :
    (∃ dist c', rebalancePaths c6oracle c6ex 0 1 19 = (some dist, c')
      ∧ (∀ pid ∈ (detectDegradedPaths c6ex 0).1, assocFind dist pid = some 5)
      ∧ (∀ pid ∈ healthyIdsOf (detectDegradedPaths c6ex 0).2 (detectDegradedPaths c6ex 0).1,
          assocFind dist pid
            = some ((loadOfPath (detectDegradedPaths c6ex 0).2 pid
                / totalHealthyLoadOf (detectDegradedPaths c6ex 0).2 (detectDegradedPaths c6ex 0).1)
                * (100 - (((detectDegradedPaths c6ex 0).1.length : ℚ)) * 5))))
    ∧ (rebalancePaths c6oracle c6allex 0 1 19
        = (some (allDegradedDist (detectDegradedPaths c6allex 0).2 (detectDegradedPaths c6allex 0).1),
           (detectDegradedPaths c6allex 0).2)
      ∧ ∀ en ∈ allDegradedDist (detectDegradedPaths c6allex 0).2 (detectDegradedPaths c6allex 0).1,
          en.2 = 100 / (((detectDegradedPaths c6allex 0).1.length : ℚ))) := by
  constructor
  · exact c6_rebalance_spec.1 c6oracle c6ex 0 1 19 _ _ rfl
      (by simp [c6ex])
      (by norm_num +decide [detectDegradedPaths, c6ex])
      (by norm_num +decide [healthyIdsOf, detectDegradedPaths, c6ex])
      (by norm_num +decide [totalHealthyLoadOf, healthyIdsOf, loadOfPath, assocFind,
          detectDegradedPaths, c6ex, List.filterMap_cons, List.filterMap_nil])
      (by simp [c6oracle])
      (by simp [c6oracle])
  · exact c6_rebalance_spec.2 c6oracle c6allex 0 1 19 _ _ rfl
      (by norm_num +decide [detectDegradedPaths, c6allex])
      (by norm_num +decide [healthyIdsOf, detectDegradedPaths, c6allex])
      (by simp [c6oracle])
      (by simp [c6oracle])

/-! ## C8: the Dijkstra invariant development -/

theorem listRank_lt_length (v : List ℤ) (x : ℤ) (hx : x ∈ v) :
    listRank v x < v.length := by
  induction v with
  | nil => cases hx
  | cons y ys ih =>
    simp only [listRank]
    by_cases h : y = x
    · simp [h]
    · rw [if_neg h]
      rcases List.mem_cons.mp hx with h1 | h1
      · exact absurd h1.symm h
      · simpa using ih h1

theorem listRank_append_mem (v w : List ℤ) (x : ℤ) (hx : x ∈ v) :
    listRank (v ++ w) x = listRank v x := by
  induction v with
  | nil => cases hx
  | cons y ys ih =>
    simp only [List.cons_append, listRank, List.append_eq]
    by_cases h : y = x
    · simp [h]
    · rw [if_neg h, if_neg h]
      rcases List.mem_cons.mp hx with h1 | h1
      · exact absurd h1.symm h
      · rw [ih h1]

theorem listRank_append_self (v : List ℤ) (c : ℤ) (hc : c ∉ v) :
    listRank (v ++ [c]) c = v.length := by
  induction v with
  | nil => simp [listRank]
  | cons y ys ih =>
    simp only [List.cons_append, listRank, List.append_eq]
    have hyc : y ≠ c := fun h => hc (h ▸ List.mem_cons_self y ys)
    rw [if_neg hyc, ih (fun h => hc (List.mem_cons_of_mem y h))]
    simp

theorem headI_cons_tail_of_ne_nil {α : Type} [Inhabited α] (l : List α) (h : l ≠ []) :
    l.headI :: l.tail = l := by
  cases l with
  | nil => exact absurd rfl h
  | cons a t => rfl

theorem headI_mem_of_ne_nil {α : Type} [Inhabited α] (l : List α) (h : l ≠ []) :
    l.headI ∈ l := by
  cases l with
  | nil => exact absurd rfl h
  | cons a t => exact List.mem_cons_self a t

theorem sortedQueue_ne_nil (l : List (ℚ × ℤ)) (h : l ≠ []) :
    jsSort (fun a b => a.1 ≤ b.1) l ≠ [] := by
  have hlen : (jsSort (fun a b => a.1 ≤ b.1) l).length = l.length := length_jsSort _ _
  intro hc
  rw [hc] at hlen
  exact h (List.length_eq_zero.mp hlen.symm)

theorem sortedQueue_headI_mem (l : List (ℚ × ℤ)) (h : l ≠ []) :
    (jsSort (fun a b => a.1 ≤ b.1) l).headI ∈ l :=
  (perm_jsSort _ l).mem_iff.mp (headI_mem_of_ne_nil _ (sortedQueue_ne_nil l h))

theorem sortedQueue_cons (l : List (ℚ × ℤ)) (h : l ≠ []) :
    (jsSort (fun a b => a.1 ≤ b.1) l).headI :: (jsSort (fun a b => a.1 ≤ b.1) l).tail
      = jsSort (fun a b => a.1 ≤ b.1) l :=
  headI_cons_tail_of_ne_nil _ (sortedQueue_ne_nil l h)

theorem sortedQueue_tail_mem (l : List (ℚ × ℤ)) (h : l ≠ []) (e : ℚ × ℤ)
    (he : e ∈ (jsSort (fun a b => a.1 ≤ b.1) l).tail) : e ∈ l := by
  have := List.mem_of_mem_tail he
  exact (perm_jsSort _ l).mem_iff.mp this

theorem sortedQueue_mem_tail_of_ne (l : List (ℚ × ℤ)) (h : l ≠ []) (e : ℚ × ℤ)
    (he : e ∈ l) (hne : e.2 ≠ (jsSort (fun a b => a.1 ≤ b.1) l).headI.2) :
    e ∈ (jsSort (fun a b => a.1 ≤ b.1) l).tail := by
  have hs : e ∈ jsSort (fun a b => a.1 ≤ b.1) l := (perm_jsSort _ l).mem_iff.mpr he
  rw [← sortedQueue_cons l h] at hs
  rcases List.mem_cons.mp hs with h1 | h1
  · exact absurd (congrArg Prod.snd h1) hne
  · exact h1

theorem dinv_queue_set (keys : List ℤ) (src dst : ℤ) (excl : List ℤ) (s : DState)
    (hinv : DInv keys src dst excl s) (hvis : s.visited ≠ [])
    (q' : List (ℚ × ℤ)) (hsub : ∀ e ∈ q', e ∈ s.queue)
    (hreach : ∀ x, x ∉ s.visited → ∀ d, (d, x) ∈ s.queue → (d, x) ∈ q') :
    DInv keys src dst excl { s with queue := q' } := by
  refine ⟨hinv.prev_excl, hinv.prev_val_excl, hinv.prev_vis, hinv.vis_prev,
    hinv.prev_src, hinv.rank_lt, ?_, ?_, hinv.vis_keys, ?_, ?_⟩
  · exact fun q hq => hinv.queue_ok q (hsub q hq)
  · exact fun q hq => hinv.queue_keys q (hsub q hq)
  · intro x hdx hxv
    rcases hinv.reach x hdx hxv with ⟨d, hd⟩
    exact ⟨d, hreach x hxv d hd⟩
  · rcases hinv.src_base with h | ⟨h1, _⟩
    · exact Or.inl h
    · exact absurd h1 hvis

theorem dinv_pop_visit (keys : List ℤ) (src dst : ℤ) (excl : List ℤ) (s : DState)
    (hinv : DInv keys src dst excl s) (c : ℤ)
    (hcq : ∃ d0, (d0, c) ∈ s.queue) (hcv : c ∉ s.visited)
    (q' : List (ℚ × ℤ)) (hsub : ∀ e ∈ q', e ∈ s.queue)
    (hreach : ∀ x, x ∉ s.visited → x ≠ c → ∀ d, (d, x) ∈ s.queue → (d, x) ∈ q') :
    DInv keys src dst excl { s with visited := s.visited ++ [c], queue := q' } := by
  obtain ⟨d0, hd0⟩ := hcq
  refine ⟨hinv.prev_excl, hinv.prev_val_excl, ?_, ?_, hinv.prev_src, ?_, ?_, ?_, ?_, ?_, ?_⟩
  · exact fun x y hxy => List.mem_append_left _ (hinv.prev_vis x y hxy)
  · intro x hx hxs
    rcases List.mem_append.mp hx with h1 | h1
    · exact hinv.vis_prev x h1 hxs
    · have hxc : x = c := by simpa using h1
      subst hxc
      rcases hinv.queue_ok (d0, x) hd0 with h2 | h2
      · exact absurd h2 hxs
      · exact h2
  · intro x y hxy hx
    rcases List.mem_append.mp hx with h1 | h1
    · have hy : y ∈ s.visited := hinv.prev_vis x y hxy
      rw [listRank_append_mem _ _ _ h1, listRank_append_mem _ _ _ hy]
      exact hinv.rank_lt x y hxy h1
    · have hxc : x = c := by simpa using h1
      subst hxc
      have hy : y ∈ s.visited := hinv.prev_vis x y hxy
      rw [listRank_append_self _ _ hcv, listRank_append_mem _ _ _ hy]
      exact listRank_lt_length _ _ hy
  · exact fun q hq => hinv.queue_ok q (hsub q hq)
  · exact fun q hq => hinv.queue_keys q (hsub q hq)
  · intro x hx
    rcases List.mem_append.mp hx with h1 | h1
    · exact hinv.vis_keys x h1
    · have hxc : x = c := by simpa using h1
      subst hxc
      exact hinv.queue_keys (d0, x) hd0
  · intro x hdx hxv
    have hxv1 : x ∉ s.visited := fun h => hxv (List.mem_append_left _ h)
    have hxc : x ≠ c := fun h => hxv (List.mem_append_right _ (by simp [h]))
    rcases hinv.reach x hdx hxv1 with ⟨d, hd⟩
    exact ⟨d, hreach x hxv1 hxc d hd⟩
  · rcases hinv.src_base with h | ⟨h1, h2⟩
    · exact Or.inl (List.mem_append_left _ h)
    · rw [h2] at hd0
      have : c = src := by
        have := List.mem_singleton.mp hd0
        exact (Prod.mk.injEq _ _ _ _).mp this |>.2
      exact Or.inl (List.mem_append_right _ (by simp [this]))

theorem dinv_relaxStep (keys : List ℤ) (src dst : ℤ) (excl : List ℤ)
    (c : ℤ) (cd : ℚ) (s : DState) (e : AdjEntry)
    (hinv : DInv keys src dst excl s)
    (hc : c ∈ s.visited) (hsrc : src ∈ s.visited)
    (hce : c ∉ excl ∨ c = src ∨ c = dst)
    (hek : e.neighbor ∈ keys) :
    DInv keys src dst excl (relaxStep dst excl c cd s e) := by
  unfold relaxStep
  split_ifs with h1 h2 h3
  · exact hinv
  · exact hinv
  · push_neg at h1
    refine ⟨?_, ?_, ?_, ?_, ?_, ?_, ?_, ?_, hinv.vis_keys, ?_, Or.inl hsrc⟩
    · intro x y hxy
      by_cases hx : x = e.neighbor
      · by_cases hxe : x ∈ excl
        · exact Or.inr (hx ▸ h1 (hx ▸ hxe))
        · exact Or.inl hxe
      · simp only [if_neg hx] at hxy
        exact hinv.prev_excl x y hxy
    · intro x y hxy
      by_cases hx : x = e.neighbor
      · simp only [if_pos hx] at hxy
        injection hxy with hy
        subst hy
        rcases hce with h | h | h
        · exact Or.inl h
        · exact Or.inr (Or.inl h)
        · exact Or.inr (Or.inr h)
      · simp only [if_neg hx] at hxy
        exact hinv.prev_val_excl x y hxy
    · intro x y hxy
      by_cases hx : x = e.neighbor
      · simp only [if_pos hx] at hxy
        injection hxy with hy
        subst hy
        exact hc
      · simp only [if_neg hx] at hxy
        exact hinv.prev_vis x y hxy
    · intro x hxv hxs
      by_cases hx : x = e.neighbor
      · simp only [if_pos hx]
        exact Option.some_ne_none c
      · simp only [if_neg hx]
        exact hinv.vis_prev x hxv hxs
    · have hsn : src ≠ e.neighbor := fun h => h2 (h ▸ hsrc)
      simp only [if_neg hsn]
      exact hinv.prev_src
    · intro x y hxy hxv
      by_cases hx : x = e.neighbor
      · exact absurd (hx ▸ hxv) h2
      · simp only [if_neg hx] at hxy
        exact hinv.rank_lt x y hxy hxv
    · intro q hq
      rcases List.mem_append.mp hq with hql | hqr
      · rcases hinv.queue_ok q hql with h | h
        · exact Or.inl h
        · right
          by_cases hx : q.2 = e.neighbor
          · simp only [if_pos hx]
            exact Option.some_ne_none c
          · simp only [if_neg hx]
            exact h
      · have hqe : q = (cd + e.link.delay_ms, e.neighbor) := by simpa using hqr
        right
        rw [hqe]
        simp only [if_pos rfl]
        exact Option.some_ne_none c
    · intro q hq
      rcases List.mem_append.mp hq with hql | hqr
      · exact hinv.queue_keys q hql
      · have hqe : q = (cd + e.link.delay_ms, e.neighbor) := by simpa using hqr
        rw [hqe]
        exact hek
    · intro x hdx hxv
      by_cases hx : x = e.neighbor
      · exact ⟨cd + e.link.delay_ms, List.mem_append_right _ (by simp [hx])⟩
      · simp only [if_neg hx] at hdx
        rcases hinv.reach x hdx hxv with ⟨d, hd⟩
        exact ⟨d, List.mem_append_left _ hd⟩
  · exact hinv

theorem dinv_relaxAll (keys : List ℤ) (src dst : ℤ) (excl : List ℤ)
    (c : ℤ) (cd : ℚ) (entries : List AdjEntry) :
    ∀ s : DState, DInv keys src dst excl s →
    c ∈ s.visited → src ∈ s.visited →
    (c ∉ excl ∨ c = src ∨ c = dst) →
    (∀ e ∈ entries, e.neighbor ∈ keys) →
    DInv keys src dst excl (relaxAll dst excl c cd entries s) := by
  induction entries with
  | nil => exact fun s hinv _ _ _ _ => hinv
  | cons e rest ih =>
    intro s hinv hc hsrc hce hek
    unfold relaxAll
    simp only [List.foldl_cons]
    rw [show List.foldl (relaxStep dst excl c cd) (relaxStep dst excl c cd s e) rest
        = relaxAll dst excl c cd rest (relaxStep dst excl c cd s e) from rfl]
    have hv : (relaxStep dst excl c cd s e).visited = s.visited := relaxStep_visited _ _ _ _ _ _
    exact ih (relaxStep dst excl c cd s e)
      (dinv_relaxStep keys src dst excl c cd s e hinv hc hsrc hce
        (hek e (List.mem_cons_self e rest)))
      (hv ▸ hc) (hv ▸ hsrc) hce
      (fun e2 he2 => hek e2 (List.mem_cons_of_mem e he2))

theorem dijkstraLoop_post (adj : List (ℤ × List AdjEntry)) (keys : List ℤ)
    (src dst : ℤ) (excl : List ℤ)
    (hadj : ∀ c : ℤ, ∀ e ∈ adjGet adj c, e.neighbor ∈ keys) :
    ∀ u q : ℕ, ∀ s : DState,
      ((adjKeys adj).filter (fun n => n ∉ s.visited)).length ≤ u →
      s.queue.length ≤ q →
      DInv keys src dst excl s →
      DInv keys src dst excl (dijkstraLoop adj src dst excl s)
      ∧ ((dijkstraLoop adj src dst excl s).queue = []
          ∨ dst ∈ (dijkstraLoop adj src dst excl s).visited) := by
  intro u
  induction u using Nat.strong_induction_on with
  | _ u ihu =>
    intro q
    induction q with
    | zero =>
      intro s hu hq hinv
      have hqe : s.queue = [] := List.length_eq_zero.mp (Nat.le_zero.mp hq)
      rw [dijkstraLoop, dif_pos hqe]
      exact ⟨hinv, Or.inl hqe⟩
    | succ q ihq =>
      intro s hu hq hinv
      by_cases hqe : s.queue = []
      · rw [dijkstraLoop, dif_pos hqe]
        exact ⟨hinv, Or.inl hqe⟩
      · rw [dijkstraLoop, dif_neg hqe]
        simp only []
        have hqlen : 0 < s.queue.length := List.length_pos.mpr hqe
        have htlen : (jsSort (fun a b => a.1 ≤ b.1) s.queue).tail.length ≤ q := by
          rw [List.length_tail, length_jsSort]
          omega
        by_cases hcv : (jsSort (fun a b => a.1 ≤ b.1) s.queue).headI.2 ∈ s.visited
        · rw [if_pos hcv]
          apply ihq
          · exact hu
          · exact htlen
          · apply dinv_queue_set keys src dst excl s hinv (List.ne_nil_of_mem hcv)
            · exact fun e he => sortedQueue_tail_mem s.queue hqe e he
            · intro x hxv d hd
              apply sortedQueue_mem_tail_of_ne s.queue hqe (d, x) hd
              intro hxc
              have hx2 : x = (jsSort (fun a b => a.1 ≤ b.1) s.queue).headI.2 := hxc
              exact hxv (hx2 ▸ hcv)
        · rw [if_neg hcv]
          have hcq : ∃ d0,
              (d0, (jsSort (fun a b => a.1 ≤ b.1) s.queue).headI.2) ∈ s.queue := by
            refine ⟨(jsSort (fun a b => a.1 ≤ b.1) s.queue).headI.1, ?_⟩
            have := sortedQueue_headI_mem s.queue hqe
            simpa using this
          have hinv1 : DInv keys src dst excl
              { s with
                visited := s.visited ++ [(jsSort (fun a b => a.1 ≤ b.1) s.queue).headI.2],
                queue := (jsSort (fun a b => a.1 ≤ b.1) s.queue).tail } := by
            apply dinv_pop_visit keys src dst excl s hinv _ hcq hcv
            · exact fun e he => sortedQueue_tail_mem s.queue hqe e he
            · intro x hxv hxc d hd
              exact sortedQueue_mem_tail_of_ne s.queue hqe (d, x) hd hxc
          by_cases hcd : (jsSort (fun a b => a.1 ≤ b.1) s.queue).headI.2 = dst
          · rw [if_pos hcd]
            refine ⟨hinv1, Or.inr ?_⟩
            exact List.mem_append_right _ (by simp [hcd])
          · rw [if_neg hcd]
            have hsrc1 : src ∈ s.visited ++ [(jsSort (fun a b => a.1 ≤ b.1) s.queue).headI.2] := by
              rcases hinv1.src_base with h | ⟨h1, _⟩
              · exact h
              · exact absurd h1 (by simp)
            by_cases hcex : (jsSort (fun a b => a.1 ≤ b.1) s.queue).headI.2 ∈ excl
                ∧ (jsSort (fun a b => a.1 ≤ b.1) s.queue).headI.2 ≠ src
                ∧ (jsSort (fun a b => a.1 ≤ b.1) s.queue).headI.2 ≠ dst
            · rw [if_pos hcex]
              by_cases hck : (jsSort (fun a b => a.1 ≤ b.1) s.queue).headI.2 ∈ adjKeys adj
              · exact ihu _ (lt_of_lt_of_le
                  (filter_not_mem_append_lt (adjKeys adj) s.visited _ hck hcv) hu)
                  _ _ le_rfl le_rfl hinv1
              · apply ihq
                · rw [filter_not_mem_append_eq (adjKeys adj) s.visited _ hck]
                  exact hu
                · exact htlen
                · exact hinv1
            · rw [if_neg hcex]
              have hce : (jsSort (fun a b => a.1 ≤ b.1) s.queue).headI.2 ∉ excl
                  ∨ (jsSort (fun a b => a.1 ≤ b.1) s.queue).headI.2 = src
                  ∨ (jsSort (fun a b => a.1 ≤ b.1) s.queue).headI.2 = dst := by
                by_cases h1 : (jsSort (fun a b => a.1 ≤ b.1) s.queue).headI.2 ∈ excl
                · by_cases h2 : (jsSort (fun a b => a.1 ≤ b.1) s.queue).headI.2 = src
                  · exact Or.inr (Or.inl h2)
                  · by_cases h3 : (jsSort (fun a b => a.1 ≤ b.1) s.queue).headI.2 = dst
                    · exact Or.inr (Or.inr h3)
                    · exact absurd ⟨h1, h2, h3⟩ hcex
                · exact Or.inl h1
              have hinv2 : DInv keys src dst excl
                  (relaxAll dst excl (jsSort (fun a b => a.1 ≤ b.1) s.queue).headI.2
                    (jsSort (fun a b => a.1 ≤ b.1) s.queue).headI.1
                    (adjGet adj (jsSort (fun a b => a.1 ≤ b.1) s.queue).headI.2)
                    { s with
                      visited := s.visited ++ [(jsSort (fun a b => a.1 ≤ b.1) s.queue).headI.2],
                      queue := (jsSort (fun a b => a.1 ≤ b.1) s.queue).tail }) :=
                dinv_relaxAll keys src dst excl _ _ _ _ hinv1
                  (List.mem_append_right _ (by simp)) hsrc1 hce
                  (hadj (jsSort (fun a b => a.1 ≤ b.1) s.queue).headI.2)
              by_cases hck : (jsSort (fun a b => a.1 ≤ b.1) s.queue).headI.2 ∈ adjKeys adj
              · apply ihu (((adjKeys adj).filter (fun n => n ∉ (relaxAll dst excl
                    (jsSort (fun a b => a.1 ≤ b.1) s.queue).headI.2
                    (jsSort (fun a b => a.1 ≤ b.1) s.queue).headI.1
                    (adjGet adj (jsSort (fun a b => a.1 ≤ b.1) s.queue).headI.2)
                    { s with
                      visited := s.visited ++ [(jsSort (fun a b => a.1 ≤ b.1) s.queue).headI.2],
                      queue := (jsSort (fun a b => a.1 ≤ b.1) s.queue).tail }).visited)).length)
                  ?_ _ _ le_rfl le_rfl hinv2
                rw [relaxAll_visited]
                exact lt_of_lt_of_le
                  (filter_not_mem_append_lt (adjKeys adj) s.visited _ hck hcv) hu
              · have hge : adjGet adj (jsSort (fun a b => a.1 ≤ b.1) s.queue).headI.2 = [] :=
                  adjGet_not_mem adj _ hck
                rw [hge]
                apply ihq
                · rw [show relaxAll dst excl (jsSort (fun a b => a.1 ≤ b.1) s.queue).headI.2
                      (jsSort (fun a b => a.1 ≤ b.1) s.queue).headI.1 []
                      { s with
                        visited := s.visited ++ [(jsSort (fun a b => a.1 ≤ b.1) s.queue).headI.2],
                        queue := (jsSort (fun a b => a.1 ≤ b.1) s.queue).tail }
                      = { s with
                        visited := s.visited ++ [(jsSort (fun a b => a.1 ≤ b.1) s.queue).headI.2],
                        queue := (jsSort (fun a b => a.1 ≤ b.1) s.queue).tail } from rfl]
                  rw [filter_not_mem_append_eq (adjKeys adj) s.visited _ hck]
                  exact hu
                · rw [show relaxAll dst excl (jsSort (fun a b => a.1 ≤ b.1) s.queue).headI.2
                      (jsSort (fun a b => a.1 ≤ b.1) s.queue).headI.1 []
                      { s with
                        visited := s.visited ++ [(jsSort (fun a b => a.1 ≤ b.1) s.queue).headI.2],
                        queue := (jsSort (fun a b => a.1 ≤ b.1) s.queue).tail }
                      = { s with
                        visited := s.visited ++ [(jsSort (fun a b => a.1 ≤ b.1) s.queue).headI.2],
                        queue := (jsSort (fun a b => a.1 ≤ b.1) s.queue).tail } from rfl]
                  exact htlen
                · rw [hge] at hinv2
                  exact hinv2

theorem head_append_left {α : Type} (a b : List α) (x : α) (h : a.head? = some x) :
    (a ++ b).head? = some x := by
  cases a with
  | nil => cases h
  | cons y t => simpa using h

theorem prevStep_some_prev (prev : ℤ → Option ℤ) (cur p : ℤ)
    (hps : prevStep prev cur = some p) : prev cur = some p := by
  unfold prevStep at hps
  cases hp : prev cur with
  | none =>
    rw [hp] at hps
    have hps2 : (none : Option ℤ) = some p := hps
    cases hps2
  | some p2 =>
    rw [hp] at hps
    have hps2 : (if p2 = 0 then none else some p2) = some p := hps
    by_cases hz : p2 = 0
    · rw [if_pos hz] at hps2; cases hps2
    · rw [if_neg hz] at hps2
      injection hps2 with h2
      rw [h2]

theorem prevStep_none_src (keys : List ℤ) (src dst : ℤ) (excl : List ℤ) (s : DState)
    (hinv : DInv keys src dst excl s) (hnz : ∀ n ∈ keys, n ≠ 0) (cur : ℤ)
    (hcv : cur ∈ s.visited) (hps : prevStep s.prev cur = none) : cur = src := by
  by_cases hcs : cur = src
  · exact hcs
  · exfalso
    have hpne : s.prev cur ≠ none := hinv.vis_prev cur hcv hcs
    cases hp : s.prev cur with
    | none => exact hpne hp
    | some p =>
      have hpv : p ∈ s.visited := hinv.prev_vis cur p hp
      have hpz : p ≠ 0 := hnz p (hinv.vis_keys p hpv)
      unfold prevStep at hps
      rw [hp] at hps
      have hps2 : (if p = 0 then none else some p) = (none : Option ℤ) := hps
      rw [if_neg hpz] at hps2
      cases hps2

theorem walk_spec (keys : List ℤ) (src dst : ℤ) (excl : List ℤ) (s : DState)
    (hinv : DInv keys src dst excl s) (hnz : ∀ n ∈ keys, n ≠ 0) :
    ∀ r : ℕ, ∀ cur : ℤ, cur ∈ s.visited → listRank s.visited cur ≤ r →
      (cur ∈ excl → cur = src ∨ cur = dst) →
      ∀ fuel : ℕ, r < fuel →
      (walkPrev s.prev fuel cur).head? = some src
      ∧ (walkPrev s.prev fuel cur).getLast? = some cur
      ∧ ∀ x ∈ walkPrev s.prev fuel cur,
          x ∈ s.visited ∧ (x ∈ excl → x = src ∨ x = dst) := by
  intro r
  induction r with
  | zero =>
    intro cur hcv hrank hce fuel hfuel
    cases fuel with
    | zero => exact absurd hfuel (Nat.not_lt_zero _)
    | succ f =>
      cases hps : prevStep s.prev cur with
      | none =>
        have hcs : cur = src := prevStep_none_src keys src dst excl s hinv hnz cur hcv hps
        simp only [walkPrev, hps]
        refine ⟨by rw [hcs]; rfl, rfl, ?_⟩
        intro x hx
        have hxc : x = cur := by simpa using hx
        subst hxc
        exact ⟨hcv, hce⟩
      | some p =>
        exfalso
        have hp : s.prev cur = some p := prevStep_some_prev s.prev cur p hps
        have := hinv.rank_lt cur p hp hcv
        omega
  | succ r ih =>
    intro cur hcv hrank hce fuel hfuel
    cases fuel with
    | zero => exact absurd hfuel (Nat.not_lt_zero _)
    | succ f =>
      cases hps : prevStep s.prev cur with
      | none =>
        have hcs : cur = src := prevStep_none_src keys src dst excl s hinv hnz cur hcv hps
        simp only [walkPrev, hps]
        refine ⟨by rw [hcs]; rfl, rfl, ?_⟩
        intro x hx
        have hxc : x = cur := by simpa using hx
        subst hxc
        exact ⟨hcv, hce⟩
      | some p =>
        have hp : s.prev cur = some p := prevStep_some_prev s.prev cur p hps
        have hpv : p ∈ s.visited := hinv.prev_vis cur p hp
        have hrankp : listRank s.visited p ≤ r := by
          have := hinv.rank_lt cur p hp hcv
          omega
        have hcep : p ∈ excl → p = src ∨ p = dst := by
          intro hpe
          rcases hinv.prev_val_excl cur p hp with h | h | h
          · exact absurd hpe h
          · exact Or.inl h
          · exact Or.inr h
        have hf : r < f := by omega
        obtain ⟨ih1, ih2, ih3⟩ := ih p hpv hrankp hcep f hf
        simp only [walkPrev, hps]
        refine ⟨head_append_left _ _ _ ih1, List.getLast?_concat _, ?_⟩
        intro x hx
        rcases List.mem_append.mp hx with h1 | h1
        · exact ih3 x h1
        · have hxc : x = cur := by simpa using h1
          subst hxc
          exact ⟨hcv, hce⟩

theorem adjGet_closed (g : GraphEngine) (hcl : adjClosed g) :
    ∀ c : ℤ, ∀ e ∈ adjGet g.adjacency c, e.neighbor ∈ nodeKeys g := by
  intro c e he
  unfold adjGet at he
  cases hf : assocFind g.adjacency c with
  | none =>
    rw [hf] at he
    have he2 : e ∈ ([] : List AdjEntry) := he
    cases he2
  | some l =>
    rw [hf] at he
    have he2 : e ∈ l := he
    exact hcl (c, l) (assocFind_mem _ _ _ hf) e he2

theorem findShortestPath_spec (g : GraphEngine) (src dst : ℤ) (excl : List ℤ)
    (p : List ℤ) (hcl : adjClosed g) (hnz : ∀ n ∈ nodeKeys g, n ≠ 0)
    (h : findShortestPath g src dst excl = some p) :
    p.head? = some src ∧ p.getLast? = some dst
    ∧ ∀ x ∈ p, x ∈ nodeKeys g ∧ (x ∈ excl → x = src ∨ x = dst) := by
  unfold findShortestPath at h
  simp only [] at h
  split_ifs at h with hsrc hdst hdist
  any_goals cases h
  case _ =>
    have hsrc2 : src ∈ nodeKeys g := hsrc
    have hinv0 : DInv (nodeKeys g) src dst excl
        { dist := fun n => if n = src then some 0 else none,
          prev := fun _ => none, visited := [], queue := [(0, src)] } := by
      refine ⟨?_, ?_, ?_, ?_, rfl, ?_, ?_, ?_, ?_, ?_, ?_⟩
      · intro x y hxy; cases hxy
      · intro x y hxy; cases hxy
      · intro x y hxy; cases hxy
      · intro x hx; cases hx
      · intro x y hxy; cases hxy
      · intro q hq
        have hq2 : q = ((0 : ℚ), src) := by simpa using hq
        rw [hq2]
        exact Or.inl rfl
      · intro q hq
        have hq2 : q = ((0 : ℚ), src) := by simpa using hq
        rw [hq2]
        exact hsrc2
      · intro x hx; cases hx
      · intro x hdx hxv
        by_cases hx : x = src
        · exact ⟨0, by simp [hx]⟩
        · exfalso
          simp only [if_neg hx] at hdx
          exact hdx rfl
      · exact Or.inr ⟨rfl, rfl⟩
    obtain ⟨hfin, hpost⟩ := dijkstraLoop_post g.adjacency (nodeKeys g) src dst excl
      (adjGet_closed g hcl)
      (((adjKeys g.adjacency).filter
        (fun n => n ∉ (([] : List ℤ)))).length) 1
      { dist := fun n => if n = src then some 0 else none,
        prev := fun _ => none, visited := [], queue := [(0, src)] }
      le_rfl (by simp) hinv0
    have hdv : dst ∈ (dijkstraLoop g.adjacency src dst excl
        { dist := fun n => if n = src then some 0 else none,
          prev := fun _ => none, visited := [], queue := [(0, src)] }).visited := by
      rcases hpost with hq0 | hdv
      · by_contra hnv
        rcases hfin.reach dst hdist hnv with ⟨d, hd⟩
        rw [hq0] at hd
        cases hd
      · exact hdv
    obtain ⟨hh, hl, hm⟩ := walk_spec (nodeKeys g) src dst excl _ hfin hnz
      (listRank (dijkstraLoop g.adjacency src dst excl
        { dist := fun n => if n = src then some 0 else none,
          prev := fun _ => none, visited := [], queue := [(0, src)] }).visited dst)
      dst hdv le_rfl (fun _ => Or.inr rfl)
      ((dijkstraLoop g.adjacency src dst excl
        { dist := fun n => if n = src then some 0 else none,
          prev := fun _ => none, visited := [], queue := [(0, src)] }).visited.length + 1)
      (by
        have := listRank_lt_length _ _ hdv
        omega)
    refine ⟨hh, hl, ?_⟩
    intro x hx
    obtain ⟨hxv, hxe⟩ := hm x hx
    exact ⟨hfin.vis_keys x hxv, hxe⟩

theorem mem_interiorNodes (p : List ℤ) (src dst x : ℤ)
    (hh : p.head? = some src) (hl : p.getLast? = some dst)
    (hx : x ∈ p) (hxs : x ≠ src) (hxd : x ≠ dst) :
    x ∈ interiorNodes p := by
  cases p with
  | nil => cases hx
  | cons a t =>
    have ha : a = src := by
      have : some a = some src := hh
      injection this
    rcases List.mem_cons.mp hx with h1 | h1
    · exact absurd (h1.trans ha) hxs
    · show x ∈ t.dropLast
      cases ht : t with
      | nil =>
        rw [ht] at h1
        cases h1
      | cons b u =>
        rw [ht] at h1
        have htne : (b :: u : List ℤ) ≠ [] := List.cons_ne_nil b u
        have hlt : (b :: u).getLast? = some dst := by
          rw [ht] at hl
          rw [← hl]
          exact List.getLast?_cons_cons.symm
        have hlast : (b :: u).getLast htne = dst := by
          have := List.getLast?_eq_getLast (b :: u) htne
          rw [this] at hlt
          injection hlt
        have hsplit : (b :: u).dropLast ++ [(b :: u).getLast htne] = b :: u :=
          List.dropLast_append_getLast htne
        rw [← hsplit] at h1
        rcases List.mem_append.mp h1 with h2 | h2
        · exact h2
        · have : x = (b :: u).getLast htne := by simpa using h2
          exact absurd (this.trans hlast) hxd

theorem kLoop_spec (g : GraphEngine) (src dst : ℤ) (excl : List ℤ)
    (hcl : adjClosed g) (hnz : ∀ n ∈ nodeKeys g, n ≠ 0) :
    ∀ i : ℕ, ∀ found : List (List ℤ), ∀ used : List ℤ,
      (∀ p ∈ found, p.head? = some src ∧ p.getLast? = some dst
        ∧ (∀ x ∈ p, x ∈ excl → x = src ∨ x = dst)) →
      (∀ p ∈ found, ∀ x ∈ p, x ≠ src → x ≠ dst → x ∈ used) →
      List.Pairwise (fun p q => ∀ x ∈ p, x ∈ q → x = src ∨ x = dst) found →
      (∀ p ∈ kLoop g src dst excl i found used,
        p.head? = some src ∧ p.getLast? = some dst
        ∧ (∀ x ∈ p, x ∈ excl → x = src ∨ x = dst))
      ∧ List.Pairwise (fun p q => ∀ x ∈ p, x ∈ q → x = src ∨ x = dst)
          (kLoop g src dst excl i found used) := by
  intro i
  induction i with
  | zero =>
    intro found used h1 h2 h3
    exact ⟨h1, h3⟩
  | succ i ih =>
    intro found used h1 h2 h3
    cases hf : findShortestPath g src dst
        (excl ++ used.filter (fun n => n ≠ src ∧ n ≠ dst)) with
    | none =>
      simp only [kLoop, hf]
      exact ⟨h1, h3⟩
    | some p =>
      simp only [kLoop, hf]
      obtain ⟨hh, hl, hmem⟩ := findShortestPath_spec g src dst _ p hcl hnz hf
      apply ih
      · intro q hq
        rcases List.mem_append.mp hq with hql | hqr
        · exact h1 q hql
        · have hqp : q = p := by simpa using hqr
          subst hqp
          exact ⟨hh, hl, fun x hx hxe => (hmem x hx).2 (List.mem_append_left _ hxe)⟩
      · intro q hq x hx hxs hxd
        rcases List.mem_append.mp hq with hql | hqr
        · exact List.mem_append_left _ (h2 q hql x hx hxs hxd)
        · have hqp : q = p := by simpa using hqr
          rw [hqp] at hx
          exact List.mem_append_right _ (mem_interiorNodes p src dst x hh hl hx hxs hxd)
      · rw [List.pairwise_append]
        refine ⟨h3, List.pairwise_singleton _ _, ?_⟩
        intro a ha b hb
        have hbp : b = p := by simpa using hb
        subst hbp
        intro x hxa hxb
        by_cases hxs : x = src
        · exact Or.inl hxs
        · by_cases hxd : x = dst
          · exact Or.inr hxd
          · have hxu : x ∈ used := h2 a ha x hxa hxs hxd
            have hxf : x ∈ used.filter (fun n => n ≠ src ∧ n ≠ dst) :=
              List.mem_filter.mpr ⟨hxu, by simp [hxs, hxd]⟩
            exact (hmem x hxb).2 (List.mem_append_right _ hxf)

theorem adjPush_closed (keysN : List ℤ) (acc : List (ℤ × List AdjEntry))
    (k : ℤ) (e : AdjEntry)
    (hacc : ∀ p ∈ acc, ∀ x ∈ p.2, x.neighbor ∈ keysN) (he : e.neighbor ∈ keysN) :
    ∀ p ∈ adjPush acc k e, ∀ x ∈ p.2, x.neighbor ∈ keysN := by
  intro p hp x hx
  unfold adjPush at hp
  rcases List.mem_map.mp hp with ⟨q, hq, hqe⟩
  by_cases hqk : q.1 = k
  · rw [if_pos hqk] at hqe
    rw [← hqe] at hx
    have hx2 : x ∈ q.2 ++ [e] := hx
    rcases List.mem_append.mp hx2 with h1 | h1
    · exact hacc q hq x h1
    · have : x = e := by simpa using h1
      rw [this]
      exact he
  · rw [if_neg hqk] at hqe
    rw [← hqe] at hx
    exact hacc q hq x hx

theorem buildGraph_adjClosed (g : GraphEngine) : adjClosed (buildGraph g) := by
  intro p hp e he
  have key : ∀ (links : List GLink) (acc : List (ℤ × List AdjEntry)),
      (∀ q ∈ acc, ∀ x ∈ q.2, x.neighbor ∈ nodeKeys g) →
      ∀ q ∈ links.foldl
        (fun acc link =>
          if link.u ∉ nodeKeys g then acc
          else if link.v ∉ nodeKeys g then acc
          else adjPush (adjPush acc link.u { neighbor := link.v, link := link })
            link.v { neighbor := link.u, link := link }) acc,
        ∀ x ∈ q.2, x.neighbor ∈ nodeKeys g := by
    intro links
    induction links with
    | nil => exact fun acc hacc => hacc
    | cons l ls ih =>
      intro acc hacc
      simp only [List.foldl_cons]
      apply ih
      by_cases hu : l.u ∉ nodeKeys g
      · rw [if_pos hu]
        exact hacc
      · rw [if_neg hu]
        by_cases hv : l.v ∉ nodeKeys g
        · rw [if_pos hv]
          exact hacc
        · rw [if_neg hv]
          exact adjPush_closed (nodeKeys g) _ l.v _
            (adjPush_closed (nodeKeys g) acc l.u _ hacc (not_not.mp hv))
            (not_not.mp hu)
  have hinit : ∀ q ∈ g.nodes.map (fun e => (e.1, ([] : List AdjEntry))),
      ∀ x ∈ q.2, x.neighbor ∈ nodeKeys g := by
    intro q hq x hx
    rcases List.mem_map.mp hq with ⟨n, _, hn⟩
    rw [← hn] at hx
    cases hx
  exact key g.links _ hinit p hp e he

/-- C8 (amended): on any loaded topology whose node ids are all nonzero,
`findKShortestPaths` with `k ≥ 2` returns paths that share no node other than
`src` and `dst`, and no returned path contains an excluded node other than
`src` or `dst`.  The nonzero-id hypothesis is needed because the path
reconstruction coerces a falsy predecessor id `0` to `null` and truncates the
path, which can leave a shared fork node outside the exclusion set. -/
theorem c8_disjoint_spec :
    ∀ (topo : TopologyData) (g : GraphEngine) (src dst : ℤ) (k : ℕ) (excl : List ℤ),
      loadTopology topo = Except.ok g →
      (∀ n ∈ nodeKeys g, n ≠ 0) →
      2 ≤ k →
      List.Pairwise
        (fun P Q => ∀ x ∈ P.nodeIds, x ∈ Q.nodeIds → x = src ∨ x = dst)
        (findKShortestPaths g src dst k excl)
      ∧ ∀ P ∈ findKShortestPaths g src dst k excl,
          ∀ x ∈ P.nodeIds, x ∈ excl → x = src ∨ x = dst := by
  intro topo g src dst k excl hload hnz hk
  have hcl : adjClosed g := by
    unfold loadTopology at hload
    injection hload with h2
    rw [← h2]
    exact buildGraph_adjClosed _
  unfold findKShortestPaths
  split_ifs with h1 h2
  · exact ⟨List.Pairwise.nil, fun P hP => absurd hP (List.not_mem_nil P)⟩
  · exact ⟨List.Pairwise.nil, fun P hP => absurd hP (List.not_mem_nil P)⟩
  · obtain ⟨hmem, hpair⟩ := kLoop_spec g src dst excl hcl hnz k [] []
      (fun p hp => absurd hp (List.not_mem_nil p))
      (fun p hp => absurd hp (List.not_mem_nil p))
      List.Pairwise.nil
    constructor
    · rw [List.pairwise_map]
      exact hpair
    · intro P hP x hx hxe
      rcases List.mem_map.mp hP with ⟨p, hp, hPp⟩
      rw [← hPp] at hx
      exact (hmem p hp).2.2 x hx hxe

theorem c8_disjoint_witness :
    List.Pairwise
      (fun P Q => ∀ x ∈ P.nodeIds, x ∈ Q.nodeIds → x = (1 : ℤ) ∨ x = 5)
      (findKShortestPaths
        ((loadTopology c8wtopo).toOption.getD
          { nodes := [], links := [], adjacency := [] }) 1 5 2 [])
    ∧ ∀ P ∈ findKShortestPaths
        ((loadTopology c8wtopo).toOption.getD
          { nodes := [], links := [], adjacency := [] }) 1 5 2 [],
        ∀ x ∈ P.nodeIds, x ∈ ([] : List ℤ) → x = 1 ∨ x = 5 :=
  c8_disjoint_spec c8wtopo
    ((loadTopology c8wtopo).toOption.getD { nodes := [], links := [], adjacency := [] })
    1 5 2 [] rfl (by decide) (by decide)

set_option maxHeartbeats 2000000 in
theorem c8_disjoint_counterexample :
    ¬ List.Pairwise
      (fun P Q => ∀ x ∈ P.nodeIds, x ∈ Q.nodeIds → x = (0 : ℤ) ∨ x = 5)
      (findKShortestPaths c8xeng 0 5 2 []) := by
  have hadj : c8xeng.adjacency = c8adj := rfl
  have ha0 : adjGet c8adj 0 =
      [{ neighbor := 2, link := { u := 0, v := 2, bw_mbps := 100, delay_ms := 1 } }] := rfl
  have ha2 : adjGet c8adj 2 =
      [{ neighbor := 0, link := { u := 0, v := 2, bw_mbps := 100, delay_ms := 1 } },
       { neighbor := 3, link := { u := 2, v := 3, bw_mbps := 100, delay_ms := 1 } },
       { neighbor := 4, link := { u := 2, v := 4, bw_mbps := 100, delay_ms := 5 } }] := rfl
  have ha3 : adjGet c8adj 3 =
      [{ neighbor := 2, link := { u := 2, v := 3, bw_mbps := 100, delay_ms := 1 } },
       { neighbor := 5, link := { u := 3, v := 5, bw_mbps := 100, delay_ms := 1 } }] := rfl
  have ha4 : adjGet c8adj 4 =
      [{ neighbor := 2, link := { u := 2, v := 4, bw_mbps := 100, delay_ms := 5 } },
       { neighbor := 5, link := { u := 4, v := 5, bw_mbps := 100, delay_ms := 5 } }] := rfl
  have e11 : dijkstraLoop c8adj 0 5 []
      { dist := fun n => if n = 0 then some 0 else none, prev := fun _ => none,
        visited := [], queue := [(0, 0)] }
      = dijkstraLoop c8adj 0 5 []
      { dist := fun n => if n = 2 then some 1 else if n = 0 then some 0 else none,
        prev := fun n => if n = 2 then some 0 else none, visited := [0], queue := [(1, 2)] } := by
    conv_lhs => rw [dijkstraLoop]
    norm_num [ha0, jsSort, insertLe, relaxAll, relaxStep, ltInfinity, jsOrInfinity]
  have e12 : dijkstraLoop c8adj 0 5 []
      { dist := fun n => if n = 2 then some 1 else if n = 0 then some 0 else none,
        prev := fun n => if n = 2 then some 0 else none, visited := [0], queue := [(1, 2)] }
      = dijkstraLoop c8adj 0 5 []
      { dist := fun n =>
          if n = 4 then some 6 else if n = 3 then some 2 else if n = 2 then some 1
          else if n = 0 then some 0 else none,
        prev := fun n =>
          if n = 4 then some 2 else if n = 3 then some 2 else if n = 2 then some 0 else none,
        visited := [0, 2], queue := [(2, 3), (6, 4)] } := by
    conv_lhs => rw [dijkstraLoop]
    norm_num [ha2, jsSort, insertLe, relaxAll, relaxStep, ltInfinity, jsOrInfinity]
  have e13 : dijkstraLoop c8adj 0 5 []
      { dist := fun n =>
          if n = 4 then some 6 else if n = 3 then some 2 else if n = 2 then some 1
          else if n = 0 then some 0 else none,
        prev := fun n =>
          if n = 4 then some 2 else if n = 3 then some 2 else if n = 2 then some 0 else none,
        visited := [0, 2], queue := [(2, 3), (6, 4)] }
      = dijkstraLoop c8adj 0 5 []
      { dist := fun n =>
          if n = 5 then some 3 else if n = 4 then some 6 else if n = 3 then some 2
          else if n = 2 then some 1 else if n = 0 then some 0 else none,
        prev := fun n =>
          if n = 5 then some 3 else if n = 4 then some 2 else if n = 3 then some 2
          else if n = 2 then some 0 else none,
        visited := [0, 2, 3], queue := [(6, 4), (3, 5)] } := by
    conv_lhs => rw [dijkstraLoop]
    norm_num [ha3, jsSort, insertLe, relaxAll, relaxStep, ltInfinity, jsOrInfinity]
    exact fun hcontra => List.noConfusion hcontra
  have e14 : dijkstraLoop c8adj 0 5 []
      { dist := fun n =>
          if n = 5 then some 3 else if n = 4 then some 6 else if n = 3 then some 2
          else if n = 2 then some 1 else if n = 0 then some 0 else none,
        prev := fun n =>
          if n = 5 then some 3 else if n = 4 then some 2 else if n = 3 then some 2
          else if n = 2 then some 0 else none,
        visited := [0, 2, 3], queue := [(6, 4), (3, 5)] }
      = { dist := fun n =>
            if n = 5 then some 3 else if n = 4 then some 6 else if n = 3 then some 2
            else if n = 2 then some 1 else if n = 0 then some 0 else none,
          prev := fun n =>
            if n = 5 then some 3 else if n = 4 then some 2 else if n = 3 then some 2
            else if n = 2 then some 0 else none,
          visited := [0, 2, 3, 5], queue := [(6, 4)] } := by
    conv_lhs => rw [dijkstraLoop]
    rw [dif_neg (show ¬([((6 : ℚ), (4 : ℤ)), (3, 5)] = []) from by simp)]
    norm_num [jsSort, insertLe, relaxAll, relaxStep, ltInfinity, jsOrInfinity]
  have h1 : findShortestPath c8xeng 0 5 [] = some [2, 3, 5] := by
    unfold findShortestPath
    rw [if_neg (by decide), if_neg (by decide)]
    simp only []
    rw [hadj, e11, e12, e13, e14]
    norm_num [walkPrev, prevStep]
    exact fun hcontra => Option.noConfusion hcontra
  have e21 : dijkstraLoop c8adj 0 5 [3]
      { dist := fun n => if n = 0 then some 0 else none, prev := fun _ => none,
        visited := [], queue := [(0, 0)] }
      = dijkstraLoop c8adj 0 5 [3]
      { dist := fun n => if n = 2 then some 1 else if n = 0 then some 0 else none,
        prev := fun n => if n = 2 then some 0 else none, visited := [0], queue := [(1, 2)] } := by
    conv_lhs => rw [dijkstraLoop]
    norm_num [ha0, jsSort, insertLe, relaxAll, relaxStep, ltInfinity, jsOrInfinity]
  have e22 : dijkstraLoop c8adj 0 5 [3]
      { dist := fun n => if n = 2 then some 1 else if n = 0 then some 0 else none,
        prev := fun n => if n = 2 then some 0 else none, visited := [0], queue := [(1, 2)] }
      = dijkstraLoop c8adj 0 5 [3]
      { dist := fun n =>
          if n = 4 then some 6 else if n = 2 then some 1 else if n = 0 then some 0 else none,
        prev := fun n => if n = 4 then some 2 else if n = 2 then some 0 else none,
        visited := [0, 2], queue := [(6, 4)] } := by
    conv_lhs => rw [dijkstraLoop]
    norm_num [ha2, jsSort, insertLe, relaxAll, relaxStep, ltInfinity, jsOrInfinity]
  have e23 : dijkstraLoop c8adj 0 5 [3]
      { dist := fun n =>
          if n = 4 then some 6 else if n = 2 then some 1 else if n = 0 then some 0 else none,
        prev := fun n => if n = 4 then some 2 else if n = 2 then some 0 else none,
        visited := [0, 2], queue := [(6, 4)] }
      = dijkstraLoop c8adj 0 5 [3]
      { dist := fun n =>
          if n = 5 then some 11 else if n = 4 then some 6 else if n = 2 then some 1
          else if n = 0 then some 0 else none,
        prev := fun n =>
          if n = 5 then some 4 else if n = 4 then some 2 else if n = 2 then some 0 else none,
        visited := [0, 2, 4], queue := [(11, 5)] } := by
    conv_lhs => rw [dijkstraLoop]
    norm_num [ha4, jsSort, insertLe, relaxAll, relaxStep, ltInfinity, jsOrInfinity]
  have e24 : dijkstraLoop c8adj 0 5 [3]
      { dist := fun n =>
          if n = 5 then some 11 else if n = 4 then some 6 else if n = 2 then some 1
          else if n = 0 then some 0 else none,
        prev := fun n =>
          if n = 5 then some 4 else if n = 4 then some 2 else if n = 2 then some 0 else none,
        visited := [0, 2, 4], queue := [(11, 5)] }
      = { dist := fun n =>
            if n = 5 then some 11 else if n = 4 then some 6 else if n = 2 then some 1
            else if n = 0 then some 0 else none,
          prev := fun n =>
            if n = 5 then some 4 else if n = 4 then some 2 else if n = 2 then some 0 else none,
          visited := [0, 2, 4, 5], queue := [] } := by
    conv_lhs => rw [dijkstraLoop]
    rw [dif_neg (show ¬([((11 : ℚ), (5 : ℤ))] = []) from by simp)]
    norm_num [jsSort, insertLe, relaxAll, relaxStep, ltInfinity, jsOrInfinity]
  have h2 : findShortestPath c8xeng 0 5 [3] = some [2, 4, 5] := by
    unfold findShortestPath
    rw [if_neg (by decide), if_neg (by decide)]
    simp only []
    rw [hadj, e21, e22, e23, e24]
    norm_num [walkPrev, prevStep]
    exact fun hcontra => Option.noConfusion hcontra
  have hk : kLoop c8xeng 0 5 [] 2 [] [] = [[2, 3, 5], [2, 4, 5]] := by
    simp [kLoop, h1, h2, interiorNodes]
  have heval : (findKShortestPaths c8xeng 0 5 2 []).map (fun P => P.nodeIds)
      = [[2, 3, 5], [2, 4, 5]] := by
    have hng : ¬((0 : ℤ) ∉ nodeKeys c8xeng ∨ (5 : ℤ) ∉ nodeKeys c8xeng) := by decide
    unfold findKShortestPaths
    rw [if_neg hng, if_neg (by norm_num : ¬(2 : ℕ) = 0), hk]
    rfl
  intro hpair
  have hmap : List.Pairwise (fun a b => ∀ x ∈ a, x ∈ b → x = (0 : ℤ) ∨ x = 5)
      ((findKShortestPaths c8xeng 0 5 2 []).map (fun P => P.nodeIds)) := by
    rw [List.pairwise_map]
    exact hpair
  rw [heval] at hmap
  have h3 := (List.pairwise_cons.mp hmap).1 [2, 4, 5] (by simp)
  have h4 := h3 2 (by simp) (by simp)
  rcases h4 with h | h
  · exact absurd h (by decide)
  · exact absurd h (by decide)
